import Mathlib

/-!
Verification of the bismuth tiling engine core.

Windows are identified by natural-number ids (TypeScript object identity:
each managed window is one object, so reference equality coincides with id
equality).  The window store (`src/kwinscript/engine/window_store.ts`) keeps
an ordered `list` of windows; JavaScript `Array.prototype` operations are
embedded below with their exact semantics (`indexOf` returning `-1`,
`splice` clamping the start index to the array length).
-/

/-- JS `Array.prototype.indexOf`: index of the first occurrence, `-1` if absent. -/
def jsIndexOf : List Nat → Nat → Int
  | [], _ => -1
  | x :: xs, a =>
    if x = a then 0
    else
      let r := jsIndexOf xs a
      if r = -1 then -1 else r + 1

/-- JS `list.splice(i, 1)`: remove the element at index `i`. -/
def jsRemoveAt (l : List Nat) (i : Nat) : List Nat := l.eraseIdx i

/-- JS `list.splice(i, 0, x)`: insert `x` at index `i` (clamped to the length,
as `splice` clamps its start argument). -/
def jsInsertAt (l : List Nat) (i : Nat) (x : Nat) : List Nat :=
  l.take i ++ x :: l.drop i

/-- `WindowStoreImpl.move` (window_store.ts:101-116): look up both indices,
bail out if either is `-1`, delete the source, then re-insert it before or
after the destination index that was computed on the original list. -/
def wsMove (l : List Nat) (srcWin destWin : Nat) (after : Bool) : List Nat :=
  let srcIdx := jsIndexOf l srcWin
  let destIdx := jsIndexOf l destWin
  if srcIdx = -1 ∨ destIdx = -1 then l
  else
    let l1 := jsRemoveAt l srcIdx.toNat
    jsInsertAt l1 (if after then destIdx.toNat + 1 else destIdx.toNat) srcWin

/-- `WindowStoreImpl.swap` (window_store.ts:127-136). -/
def wsSwap (l : List Nat) (alpha beta : Nat) : List Nat :=
  let alphaIndex := jsIndexOf l alpha
  let betaIndex := jsIndexOf l beta
  if alphaIndex < 0 ∨ betaIndex < 0 then l
  else (l.set alphaIndex.toNat beta).set betaIndex.toNat alpha

/-- `WindowStoreImpl.push` (window_store.ts:150-153). -/
def wsPush (l : List Nat) (w : Nat) : List Nat := l ++ [w]

/-- `WindowStoreImpl.unshift` (window_store.ts:162-164). -/
def wsUnshift (l : List Nat) (w : Nat) : List Nat := w :: l

/-- `WindowStoreImpl.remove` (window_store.ts:155-160). -/
def wsRemove (l : List Nat) (w : Nat) : List Nat :=
  let idx := jsIndexOf l w
  if 0 ≤ idx then jsRemoveAt l idx.toNat else l

/-- `WindowStoreImpl.putWindowToMaster` (window_store.ts:118-125). -/
def wsPutWindowToMaster (l : List Nat) (w : Nat) : List Nat :=
  let idx := jsIndexOf l w
  if idx = -1 then l
  else jsInsertAt (jsRemoveAt l idx.toNat) 0 w

/-! ### Basic facts about the JS primitives -/

theorem jsIndexOf_cases (l : List Nat) (a : Nat) :
    jsIndexOf l a = -1 ∨ 0 ≤ jsIndexOf l a := by
  induction l with
  | nil => left; rfl
  | cons x xs ih =>
    by_cases hx : x = a
    · right; simp [jsIndexOf, hx]
    · rcases ih with h | h
      · left; simp [jsIndexOf, hx, h]
      · simp only [jsIndexOf, if_neg hx]
        by_cases hr : jsIndexOf xs a = -1
        · left; simp [hr]
        · right; simp only [if_neg hr]; omega

theorem jsIndexOf_eq_neg_one_iff {l : List Nat} {a : Nat} :
    jsIndexOf l a = -1 ↔ a ∉ l := by
  induction l with
  | nil => simp [jsIndexOf]
  | cons x xs ih =>
    by_cases hx : x = a
    · subst hx
      simp [jsIndexOf]
    · simp only [jsIndexOf, if_neg hx, List.mem_cons]
      by_cases hr : jsIndexOf xs a = -1
      · have hax : a ≠ x := fun h => hx h.symm
        simp [hr, ih.mp hr, hax]
      · have hge : 0 ≤ jsIndexOf xs a := (jsIndexOf_cases xs a).resolve_left hr
        have hmem : a ∈ xs := by
          by_contra hni
          exact hr (ih.mpr hni)
        simp only [if_neg hr]
        constructor
        · intro h; omega
        · intro h; exact absurd (Or.inr hmem) h

theorem jsIndexOf_nonneg_of_mem {l : List Nat} {a : Nat} (h : a ∈ l) :
    0 ≤ jsIndexOf l a := by
  rcases jsIndexOf_cases l a with hc | hc
  · exact absurd h (jsIndexOf_eq_neg_one_iff.mp hc)
  · exact hc

theorem jsIndexOf_append_cons_self {l1 l2 : List Nat} {a : Nat} (h : a ∉ l1) :
    jsIndexOf (l1 ++ a :: l2) a = (l1.length : Int) := by
  induction l1 with
  | nil => simp [jsIndexOf]
  | cons x xs ih =>
    have hx : x ≠ a := fun hh => h (hh ▸ List.mem_cons_self x xs)
    have hxs : a ∉ xs := fun hh => h (List.mem_cons_of_mem x hh)
    have hr := ih hxs
    have hne : jsIndexOf (xs ++ a :: l2) a ≠ -1 := by
      rw [hr]; omega
    simp only [List.cons_append, jsIndexOf, List.append_eq, if_neg hx,
      if_neg hne, hr, List.length_cons]
    push_cast
    omega

/-- A non-negative `indexOf` result decomposes the list around the first
occurrence of the element. -/
theorem jsIndexOf_decomp {l : List Nat} {a : Nat} (h : 0 ≤ jsIndexOf l a) :
    ∃ l1 l2, l = l1 ++ a :: l2 ∧ (l1.length : Int) = jsIndexOf l a ∧ a ∉ l1 := by
  induction l with
  | nil => simp [jsIndexOf] at h
  | cons x xs ih =>
    by_cases hx : x = a
    · subst hx
      exact ⟨[], xs, rfl, by simp [jsIndexOf], by simp⟩
    · have hxs : 0 ≤ jsIndexOf xs a := by
        rcases jsIndexOf_cases xs a with hc | hc
        · exfalso
          have : jsIndexOf (x :: xs) a = -1 := by simp [jsIndexOf, hx, hc]
          omega
        · exact hc
      obtain ⟨l1, l2, hdecomp, hlen, hnot⟩ := ih hxs
      refine ⟨x :: l1, l2, by simp [hdecomp], ?_, ?_⟩
      · have hne : jsIndexOf xs a ≠ -1 := by omega
        simp only [jsIndexOf, if_neg hx, if_neg hne, List.length_cons]
        push_cast
        omega
      · intro hmem
        rcases List.mem_cons.mp hmem with hh | hh
        · exact hx hh.symm
        · exact hnot hh

theorem eraseIdx_append_cons (l1 l2 : List Nat) (a : Nat) :
    (l1 ++ a :: l2).eraseIdx l1.length = l1 ++ l2 := by
  induction l1 with
  | nil => simp [List.eraseIdx]
  | cons x xs ih => simp [List.eraseIdx, ih]

theorem jsInsertAt_append (l1 l2 : List Nat) (x : Nat) :
    jsInsertAt (l1 ++ l2) l1.length x = l1 ++ x :: l2 := by
  unfold jsInsertAt
  rw [List.take_left, List.drop_left]

theorem jsInsertAt_of_length_le {l : List Nat} {i : Nat} (h : l.length ≤ i)
    (x : Nat) : jsInsertAt l i x = l ++ [x] := by
  unfold jsInsertAt
  rw [List.take_of_length_le h, List.drop_of_length_le h]

theorem jsInsertAt_perm (l : List Nat) (i : Nat) (x : Nat) :
    List.Perm (jsInsertAt l i x) (x :: l) := by
  unfold jsInsertAt
  have h : List.Perm (l.take i ++ x :: l.drop i) (x :: (l.take i ++ l.drop i)) :=
    List.perm_middle
  rw [List.take_append_drop] at h
  exact h

theorem get?_append_cons (l1 l2 : List Nat) (a : Nat) :
    (l1 ++ a :: l2).get? l1.length = some a := by
  induction l1 with
  | nil => rfl
  | cons x xs ih => simpa using ih

theorem perm_get_cons_eraseIdx :
    ∀ (l : List Nat) (i : Nat) (c : Nat), l.get? i = some c →
      List.Perm l (c :: l.eraseIdx i)
  | [], _, _, h => by simp at h
  | x :: xs, 0, c, h => by
      simp only [List.get?] at h
      injection h with h
      subst h
      exact List.Perm.refl _
  | x :: xs, i + 1, c, h => by
      simp only [List.get?] at h
      have ih := perm_get_cons_eraseIdx xs i c h
      have h1 : List.Perm (x :: xs) (x :: c :: xs.eraseIdx i) := ih.cons x
      have h2 : List.Perm (x :: c :: xs.eraseIdx i) (c :: x :: xs.eraseIdx i) :=
        List.Perm.swap c x _
      exact h1.trans h2

theorem set_perm_cons :
    ∀ (l : List Nat) (i : Nat) (c : Nat), l.get? i = some c → ∀ (v : Nat),
      List.Perm (l.set i v) (v :: l.eraseIdx i)
  | [], _, _, h, _ => by simp at h
  | x :: xs, 0, c, _, v => by
      exact List.Perm.refl _
  | x :: xs, i + 1, c, h, v => by
      simp only [List.get?] at h
      have ih := set_perm_cons xs i c h v
      have h1 : List.Perm (x :: xs.set i v) (x :: v :: xs.eraseIdx i) := ih.cons x
      have h2 : List.Perm (x :: v :: xs.eraseIdx i) (v :: x :: xs.eraseIdx i) :=
        List.Perm.swap v x _
      exact h1.trans h2

theorem set_set_perm :
    ∀ (l : List Nat) (i j a b : Nat), l.get? i = some a → l.get? j = some b →
      List.Perm ((l.set i b).set j a) l
  | [], _, _, _, _, ha, _ => by simp at ha
  | x :: xs, 0, 0, a, b, ha, _ => by
      simp only [List.get?] at ha
      injection ha with ha
      subst ha
      exact List.Perm.refl _
  | x :: xs, 0, j + 1, a, b, ha, hb => by
      simp only [List.get?] at ha hb
      injection ha with ha
      subst ha
      have h1 := set_perm_cons xs j b hb x
      have h2 := perm_get_cons_eraseIdx xs j b hb
      show List.Perm (b :: xs.set j x) (x :: xs)
      exact ((h1.cons b).trans ((List.Perm.swap x b _).trans (h2.cons x).symm))
  | x :: xs, i + 1, 0, a, b, ha, hb => by
      simp only [List.get?] at ha hb
      injection hb with hb
      subst hb
      have h1 := set_perm_cons xs i a ha x
      have h2 := perm_get_cons_eraseIdx xs i a ha
      show List.Perm (a :: xs.set i x) (x :: xs)
      exact ((h1.cons a).trans ((List.Perm.swap x a _).trans (h2.cons x).symm))
  | x :: xs, i + 1, j + 1, a, b, ha, hb => by
      simp only [List.get?] at ha hb
      exact (set_set_perm xs i j a b ha hb).cons x

/-! ### Structure of the window-store operations -/

theorem wsRemove_of_not_mem {l : List Nat} {a : Nat} (h : a ∉ l) :
    wsRemove l a = l := by
  unfold wsRemove
  have := jsIndexOf_eq_neg_one_iff.mpr h
  rw [if_neg (by omega)]

theorem wsRemove_decomp {l : List Nat} {a : Nat} (h : a ∈ l) :
    ∃ l1 l2, l = l1 ++ a :: l2 ∧ a ∉ l1 ∧ wsRemove l a = l1 ++ l2 := by
  have hge := jsIndexOf_nonneg_of_mem h
  obtain ⟨l1, l2, hdec, hlen, hnot⟩ := jsIndexOf_decomp hge
  refine ⟨l1, l2, hdec, hnot, ?_⟩
  unfold wsRemove jsRemoveAt
  rw [if_pos hge]
  have htn : (jsIndexOf l a).toNat = l1.length := by omega
  rw [htn, hdec, eraseIdx_append_cons]

theorem wsRemove_append_cons {l1 l2 : List Nat} {a : Nat} (h : a ∉ l1) :
    wsRemove (l1 ++ a :: l2) a = l1 ++ l2 := by
  unfold wsRemove jsRemoveAt
  have hidx : jsIndexOf (l1 ++ a :: l2) a = (l1.length : Int) :=
    jsIndexOf_append_cons_self h
  rw [hidx, if_pos (by positivity)]
  have : ((l1.length : Int)).toNat = l1.length := by omega
  rw [this, eraseIdx_append_cons]

theorem wsMove_perm {l : List Nat} {s d : Nat} (hs : s ∈ l) (hd : d ∈ l)
    (after : Bool) : List.Perm (wsMove l s d after) l := by
  unfold wsMove
  have hsge := jsIndexOf_nonneg_of_mem hs
  have hdge := jsIndexOf_nonneg_of_mem hd
  rw [if_neg (by omega)]
  obtain ⟨l1, l2, hdec, hlen, hnot⟩ := jsIndexOf_decomp hsge
  have htn : (jsIndexOf l s).toNat = l1.length := by omega
  have herase : jsRemoveAt l (jsIndexOf l s).toNat = l1 ++ l2 := by
    unfold jsRemoveAt
    rw [htn, hdec, eraseIdx_append_cons]
  rw [herase]
  have hins := jsInsertAt_perm (l1 ++ l2)
    (if after then (jsIndexOf l d).toNat + 1 else (jsIndexOf l d).toNat) s
  refine hins.trans ?_
  rw [hdec]
  exact List.perm_middle.symm

theorem wsMove_of_src_not_mem {l : List Nat} {s : Nat} (hs : s ∉ l)
    (d : Nat) (after : Bool) : wsMove l s d after = l := by
  unfold wsMove
  rw [if_pos (Or.inl (jsIndexOf_eq_neg_one_iff.mpr hs))]

theorem wsMove_of_dest_not_mem {l : List Nat} {d : Nat} (hd : d ∉ l)
    (s : Nat) (after : Bool) : wsMove l s d after = l := by
  unfold wsMove
  rw [if_pos (Or.inr (jsIndexOf_eq_neg_one_iff.mpr hd))]

theorem wsSwap_perm {l : List Nat} {a b : Nat} (ha : a ∈ l) (hb : b ∈ l) :
    List.Perm (wsSwap l a b) l := by
  unfold wsSwap
  have hage := jsIndexOf_nonneg_of_mem ha
  have hbge := jsIndexOf_nonneg_of_mem hb
  rw [if_neg (by omega)]
  obtain ⟨l1, l2, hdec1, hlen1, _⟩ := jsIndexOf_decomp hage
  obtain ⟨m1, m2, hdec2, hlen2, _⟩ := jsIndexOf_decomp hbge
  have hga : l.get? (jsIndexOf l a).toNat = some a := by
    have htn : (jsIndexOf l a).toNat = l1.length := by omega
    rw [htn, hdec1, get?_append_cons]
  have hgb : l.get? (jsIndexOf l b).toNat = some b := by
    have htn : (jsIndexOf l b).toNat = m1.length := by omega
    rw [htn, hdec2, get?_append_cons]
  exact set_set_perm l (jsIndexOf l a).toNat (jsIndexOf l b).toNat a b hga hgb

theorem wsSwap_of_not_mem_left {l : List Nat} {a : Nat} (ha : a ∉ l) (b : Nat) :
    wsSwap l a b = l := by
  unfold wsSwap
  have := jsIndexOf_eq_neg_one_iff.mpr ha
  rw [if_pos (Or.inl (by omega))]

theorem wsSwap_of_not_mem_right {l : List Nat} {b : Nat} (hb : b ∉ l) (a : Nat) :
    wsSwap l a b = l := by
  unfold wsSwap
  have := jsIndexOf_eq_neg_one_iff.mpr hb
  rw [if_pos (Or.inr (by omega))]

/-!
### C1: `move` before/after semantics

The interface documentation (window_store.ts:72-76) promises that
`move(src, dest, after)` puts `src` immediately before `dest` when
`after` is false.  The implementation deletes `src` first and then
inserts at the destination index computed on the *original* list, so
whenever `src` precedes `dest` the insertion lands one slot too far to
the right.
-/

/-- C1: on the store `[a, b]` (ids `0`, `1`), `move(a, b, after := false)`
must, per the documented contract, leave `a` immediately before `b` — i.e.
the list `[0, 1]` unchanged.  The code instead produces `[1, 0]`, placing
`a` immediately *after* `b`; the same off-by-one occurs whenever the source
index is smaller than the destination index. -/
theorem wsMove_before_failing_input :
    wsMove [0, 1] 0 1 false = [1, 0] ∧ wsMove [0, 1] 0 1 false ≠ [0, 1] := by
  constructor
  · rfl
  · decide

/-!
### C2: duplicate-freedom and identity preservation

Operation sequences over an initially empty store.  `push` appends without
any duplicate check, so pushing a window that is already present creates a
duplicate; the invariant holds for sequences in which every pushed window
is fresh at push time.
-/

/-- One mutating window-store operation (window_store.ts). -/
inductive WSOp where
  | push (w : Nat)
  | remove (w : Nat)
  | move (src dest : Nat) (after : Bool)
  | swap (a b : Nat)
deriving DecidableEq

/-- Apply one operation to the store list. -/
def applyOp (l : List Nat) : WSOp → List Nat
  | WSOp.push w => wsPush l w
  | WSOp.remove w => wsRemove l w
  | WSOp.move s d aft => wsMove l s d aft
  | WSOp.swap a b => wsSwap l a b

/-- Apply a sequence of operations to the store list, first element first. -/
def applyOps (ops : List WSOp) (l : List Nat) : List Nat :=
  ops.foldl applyOp l

/-- The sequence never pushes a window that is currently present. -/
def validOps (l : List Nat) : List WSOp → Bool
  | [] => true
  | op :: rest =>
    (match op with
     | WSOp.push w => decide (w ∉ l)
     | _ => true) && validOps (applyOp l op) rest

/-- Fold computing whether, after the sequence, `w` counts as "pushed and
not subsequently removed" (starting from the presence flag `b`). -/
def liveAfter (ops : List WSOp) (w : Nat) (b : Bool) : Bool :=
  ops.foldl
    (fun b op =>
      match op with
      | WSOp.push v => if v = w then true else b
      | WSOp.remove v => if v = w then false else b
      | _ => b)
    b

theorem mem_wsMove_iff {l : List Nat} (s d : Nat) (aft : Bool) (w : Nat) :
    w ∈ wsMove l s d aft ↔ w ∈ l := by
  by_cases hs : s ∈ l
  · by_cases hd : d ∈ l
    · exact (wsMove_perm hs hd aft).mem_iff
    · rw [wsMove_of_dest_not_mem hd]
  · rw [wsMove_of_src_not_mem hs]

theorem wsMove_nodup {l : List Nat} (s d : Nat) (aft : Bool) (hnd : l.Nodup) :
    (wsMove l s d aft).Nodup := by
  by_cases hs : s ∈ l
  · by_cases hd : d ∈ l
    · exact (wsMove_perm hs hd aft).nodup_iff.mpr hnd
    · rw [wsMove_of_dest_not_mem hd]; exact hnd
  · rw [wsMove_of_src_not_mem hs]; exact hnd

theorem mem_wsSwap_iff {l : List Nat} (a b : Nat) (w : Nat) :
    w ∈ wsSwap l a b ↔ w ∈ l := by
  by_cases ha : a ∈ l
  · by_cases hb : b ∈ l
    · exact (wsSwap_perm ha hb).mem_iff
    · rw [wsSwap_of_not_mem_right hb]
  · rw [wsSwap_of_not_mem_left ha]

theorem wsSwap_nodup {l : List Nat} (a b : Nat) (hnd : l.Nodup) :
    (wsSwap l a b).Nodup := by
  by_cases ha : a ∈ l
  · by_cases hb : b ∈ l
    · exact (wsSwap_perm ha hb).nodup_iff.mpr hnd
    · rw [wsSwap_of_not_mem_right hb]; exact hnd
  · rw [wsSwap_of_not_mem_left ha]; exact hnd


theorem wsRemove_nodup_mem {l : List Nat} {v : Nat} (hnd : l.Nodup) :
    (wsRemove l v).Nodup ∧ ∀ w, (w ∈ wsRemove l v ↔ w ∈ l ∧ w ≠ v) := by
  by_cases hv : v ∈ l
  · obtain ⟨l1, l2, hdec, _, heq⟩ := wsRemove_decomp hv
    subst hdec
    rw [heq]
    have hmid := List.nodup_cons.mp (List.nodup_middle.mp hnd)
    refine ⟨hmid.2, ?_⟩
    intro w
    constructor
    · intro hw
      refine ⟨?_, ?_⟩
      · rcases List.mem_append.mp hw with h | h
        · exact List.mem_append.mpr (Or.inl h)
        · exact List.mem_append.mpr (Or.inr (List.mem_cons_of_mem _ h))
      · rintro rfl
        exact hmid.1 hw
    · rintro ⟨hw, hne⟩
      rcases List.mem_append.mp hw with h | h
      · exact List.mem_append.mpr (Or.inl h)
      · rcases List.mem_cons.mp h with h | h
        · exact absurd h hne
        · exact List.mem_append.mpr (Or.inr h)
  · rw [wsRemove_of_not_mem hv]
    exact ⟨hnd, fun w =>
      ⟨fun hw => ⟨hw, fun he => hv (he ▸ hw)⟩, fun h => h.1⟩⟩

theorem wsPush_nodup {l : List Nat} {w : Nat} (hnd : l.Nodup) (hw : w ∉ l) :
    (wsPush l w).Nodup := by
  unfold wsPush
  have h : (l ++ w :: ([] : List Nat)).Nodup ↔ (w :: (l ++ [])).Nodup :=
    List.nodup_middle
  simp only [List.append_nil] at h
  exact h.mpr (List.nodup_cons.mpr ⟨hw, hnd⟩)

/-- Invariant lemma for C2: along any valid operation sequence (one that
never pushes a window already present) the store stays duplicate-free, and
every window that is live ("pushed and not removed since", starting from
its initial presence) is in the final store. -/
theorem applyOps_valid_spec :
    ∀ (ops : List WSOp) (l : List Nat), l.Nodup → validOps l ops = true →
      (applyOps ops l).Nodup ∧
        ∀ w : Nat, liveAfter ops w (decide (w ∈ l)) = true →
          w ∈ applyOps ops l := by
  intro ops
  induction ops with
  | nil =>
    intro l hnd _
    refine ⟨hnd, ?_⟩
    intro w hw
    exact of_decide_eq_true hw
  | cons op rest ih =>
    intro l hnd hvalid
    simp only [validOps, Bool.and_eq_true] at hvalid
    obtain ⟨hguard, hv2⟩ := hvalid
    cases op with
    | push v =>
      have hfresh : v ∉ l := of_decide_eq_true hguard
      have hnd' : (applyOp l (WSOp.push v)).Nodup := wsPush_nodup hnd hfresh
      obtain ⟨ihnd, ihmem⟩ := ih _ hnd' hv2
      refine ⟨ihnd, ?_⟩
      intro w hw
      apply ihmem w
      have hb : (if v = w then true else decide (w ∈ l)) =
          decide (w ∈ applyOp l (WSOp.push v)) := by
        by_cases hvw : v = w
        · subst hvw
          simp [applyOp, wsPush]
        · rw [if_neg hvw]
          refine decide_eq_decide.mpr ?_
          show w ∈ l ↔ w ∈ wsPush l v
          unfold wsPush
          rw [List.mem_append, List.mem_singleton]
          constructor
          · exact Or.inl
          · rintro (h | h)
            · exact h
            · exact absurd h.symm hvw
      have hw2 : liveAfter rest w (if v = w then true else decide (w ∈ l)) =
          true := hw
      rw [hb] at hw2
      exact hw2
    | remove v =>
      obtain ⟨hnd', hmem⟩ := wsRemove_nodup_mem (v := v) hnd
      obtain ⟨ihnd, ihmem⟩ := ih _ hnd' hv2
      refine ⟨ihnd, ?_⟩
      intro w hw
      apply ihmem w
      have hb : (if v = w then false else decide (w ∈ l)) =
          decide (w ∈ applyOp l (WSOp.remove v)) := by
        by_cases hvw : v = w
        · subst hvw
          have : v ∉ wsRemove l v := fun hc => ((hmem v).mp hc).2 rfl
          rw [if_pos rfl]
          exact (decide_eq_false this).symm
        · rw [if_neg hvw]
          refine decide_eq_decide.mpr ?_
          show w ∈ l ↔ w ∈ wsRemove l v
          rw [hmem w]
          exact ⟨fun h => ⟨h, fun he => hvw he.symm⟩, fun h => h.1⟩
      have hw2 : liveAfter rest w (if v = w then false else decide (w ∈ l)) =
          true := hw
      rw [hb] at hw2
      exact hw2
    | move s d aft =>
      have hnd' : (applyOp l (WSOp.move s d aft)).Nodup := wsMove_nodup s d aft hnd
      obtain ⟨ihnd, ihmem⟩ := ih _ hnd' hv2
      refine ⟨ihnd, ?_⟩
      intro w hw
      apply ihmem w
      have hb : decide (w ∈ l) = decide (w ∈ applyOp l (WSOp.move s d aft)) :=
        decide_eq_decide.mpr (mem_wsMove_iff s d aft w).symm
      have hw2 : liveAfter rest w (decide (w ∈ l)) = true := hw
      rw [hb] at hw2
      exact hw2
    | swap a b =>
      have hnd' : (applyOp l (WSOp.swap a b)).Nodup := wsSwap_nodup a b hnd
      obtain ⟨ihnd, ihmem⟩ := ih _ hnd' hv2
      refine ⟨ihnd, ?_⟩
      intro w hw
      apply ihmem w
      have hb : decide (w ∈ l) = decide (w ∈ applyOp l (WSOp.swap a b)) :=
        decide_eq_decide.mpr (mem_wsSwap_iff a b w).symm
      have hw2 : liveAfter rest w (decide (w ∈ l)) = true := hw
      rw [hb] at hw2
      exact hw2

/-- C2 counterexample: the claim quantifies over *every* sequence of
`push`/`remove`/`move`/`swap` from the empty store, but `push`
(window_store.ts:150-153) appends unconditionally, so pushing the same
window twice yields the store `[0, 0]`, which contains two entries with the
same identity. -/
theorem windowStore_duplicate_push_counterexample :
    applyOps [WSOp.push 0, WSOp.push 0] [] = [0, 0] ∧
      ¬ (applyOps [WSOp.push 0, WSOp.push 0] []).Nodup := by
  constructor
  · rfl
  · decide

/-- C2 (amended): for every sequence of `push`/`remove`/`move`/`swap`
applied to an initially empty Window Store *in which no `push` inserts a
window already present at that moment*, the final store contains no two
windows with the same identity, and every window pushed and not
subsequently removed is still present. -/
theorem windowStore_no_dup_no_loss (ops : List WSOp)
    (hvalid : validOps [] ops = true) :
    (applyOps ops []).Nodup ∧
      ∀ w : Nat, liveAfter ops w false = true → w ∈ applyOps ops [] := by
  have h := applyOps_valid_spec ops [] List.nodup_nil hvalid
  refine ⟨h.1, ?_⟩
  intro w hw
  apply h.2 w
  simpa using hw

/-- Witness for C2: a concrete valid sequence exercising all four
operations satisfies both invariants. -/
theorem windowStore_no_dup_no_loss_witness :
    validOps [] [WSOp.push 0, WSOp.push 1, WSOp.swap 0 1, WSOp.remove 0,
        WSOp.push 0, WSOp.move 0 1 false] = true ∧
      ((applyOps [WSOp.push 0, WSOp.push 1, WSOp.swap 0 1, WSOp.remove 0,
          WSOp.push 0, WSOp.move 0 1 false] []).Nodup ∧
        ∀ w : Nat, liveAfter [WSOp.push 0, WSOp.push 1, WSOp.swap 0 1,
            WSOp.remove 0, WSOp.push 0, WSOp.move 0 1 false] w false = true →
          w ∈ applyOps [WSOp.push 0, WSOp.push 1, WSOp.swap 0 1,
            WSOp.remove 0, WSOp.push 0, WSOp.move 0 1 false] []) :=
  ⟨by decide, windowStore_no_dup_no_loss _ (by decide)⟩

/-!
### Window data model

`util/rect.ts` and `engine/window.ts` are not part of the provided sources;
the rectangle operations and the derived window flags below are therefore
modelled from the spec (sections 3 and the glossary), as noted on each
definition.  Everything that *is* in the sources (the store filters of
window_store.ts and the whole engine of engine/index.ts) is embedded
directly from the code.
-/

/-- Immutable rectangle `(x, y, width, height)` (spec section 3, `Rect`). -/
structure Rect where
  x : Int
  y : Int
  width : Int
  height : Int
deriving DecidableEq

/-- Modelled from the spec: `maxX = x + width`. -/
def Rect.maxX (r : Rect) : Int := r.x + r.width

/-- Modelled from the spec: `maxY = y + height`. -/
def Rect.maxY (r : Rect) : Int := r.y + r.height

/-- Modelled from the spec: `gap(l, r, t, b)` shrinks the rectangle by the
four insets (util/rect.ts is not in the provided sources). -/
def Rect.gap (r : Rect) (gl gr gt gb : Int) : Rect :=
  ⟨r.x + gl, r.y + gt, r.width - gl - gr, r.height - gt - gb⟩

/-- Window states (spec section 4.3). -/
inductive WState where
  | unmanaged
  | undecided
  | tiled
  | floating
  | maximized
deriving DecidableEq

/-- Modelled from the spec: `Maximized` is a rendering special case of
`Tiled` ("not a persisted state distinct from Tiled"), so both count as a
tiled state. -/
def isTiledState : WState → Bool
  | WState.tiled => true
  | WState.maximized => true
  | _ => false

/-- Modelled from the spec: the floating state. -/
def isFloatingState : WState → Bool
  | WState.floating => true
  | _ => false

/-- The engine-relevant attributes of one window (spec section 3,
`EngineWindow`): group tag, state, host flags, owning surface id, intended
geometry and the last-focused timestamp. -/
structure WinData where
  group : Nat
  state : WState
  minimized : Bool
  shouldIgnore : Bool
  shouldFloat : Bool
  surface : Option Nat
  geometry : Rect
  timestamp : Int
deriving DecidableEq

/-- Modelled from the spec (glossary): tileable = "not floating, not
minimized, not ignored". -/
def tileable (d : WinData) : Bool :=
  !(isFloatingState d.state) && !d.minimized && !d.shouldIgnore

/-- Modelled from the spec: a window counts as tiled when its state is a
tiled state. -/
def tiledWin (d : WinData) : Bool := isTiledState d.state

/-- Modelled from the spec: visible on a surface = belongs to that surface
and not minimized. -/
def visibleOn (d : WinData) (surf : Nat) : Bool :=
  (d.surface == some surf) && !d.minimized

/-- A simplified surface membership: the window belongs to the surface
identified by its stored surface id.  The real test is
`DriverWindowImpl.on` (driver/window.ts:583-593), which additionally
admits any window whose group is displayed on the surface and spells the
stored id out as desktop/activity/screen equality; that full predicate is
embedded as `dOn` over the driver-level window attributes further below.
This simplified form feeds only conclusions that do not depend on which
extra windows the commit loop captures. -/
def onSurface (d : WinData) (surf : Nat) : Bool := d.surface == some surf

/-! ### Store filters (window_store.ts:180-214), over a heap of windows -/

/-- `visibleWindowsOn` (window_store.ts:180-182). -/
def visibleWindowsOn (h : Nat → WinData) (store : List Nat) (surf : Nat) :
    List Nat :=
  store.filter (fun i => visibleOn (h i) surf)

/-- `visibleTiledWindowsOn` (window_store.ts:184-186). -/
def visibleTiledWindowsOn (h : Nat → WinData) (store : List Nat) (surf : Nat) :
    List Nat :=
  store.filter (fun i => tiledWin (h i) && visibleOn (h i) surf)

/-- `visibleTileableWindowsOn` (window_store.ts:196-198). -/
def visibleTileableWindowsOn (h : Nat → WinData) (store : List Nat)
    (surf : Nat) : List Nat :=
  store.filter (fun i => tileable (h i) && visibleOn (h i) surf)

/-- `tileableWindowsOn` (window_store.ts:200-204). -/
def tileableWindowsOn (h : Nat → WinData) (store : List Nat) (surf : Nat) :
    List Nat :=
  store.filter (fun i => tileable (h i) && onSurface (h i) surf)

/-- `tiledWindowsIn` (window_store.ts:206-210). -/
def tiledWindowsIn (h : Nat → WinData) (store : List Nat) (group : Nat) :
    List Nat :=
  store.filter (fun i => (tileable (h i) || (h i).minimized) &&
    (h i).group == group)

/-- `allWindowsOn` (window_store.ts:212-214) over the simplified
membership `onSurface`; the faithful version over the full
`DriverWindowImpl.on` predicate is `dAllWindowsOn` further below. -/
def allWindowsOn (h : Nat → WinData) (store : List Nat) (surf : Nat) :
    List Nat :=
  store.filter (fun i => onSurface (h i) surf)

/-- `isInMasterStack` (window_store.ts:166-174): filter the group's
tiled-or-minimized windows, dropping minimized ones except the window
itself, and test that the window's index lies in `[0, stackSize)`. -/
def isInMasterStack (h : Nat → WinData) (store : List Nat) (w : Nat)
    (stackSize : Int) : Bool :=
  let windowStack :=
    (tiledWindowsIn h store (h w).group).filter
      (fun i => !(h i).minimized || i == w)
  let foundIndex := jsIndexOf windowStack w
  decide (0 ≤ foundIndex) && decide (foundIndex < stackSize)

theorem jsIndexOf_le_of_get? :
    ∀ (l : List Nat) (i : Nat) (a : Nat), l.get? i = some a →
      jsIndexOf l a ≤ (i : Int)
  | [], _, _, h => by simp at h
  | x :: xs, 0, a, h => by
      simp only [List.get?] at h
      injection h with h
      subst h
      simp [jsIndexOf]
  | x :: xs, i + 1, a, h => by
      simp only [List.get?] at h
      by_cases hx : x = a
      · simp [jsIndexOf, hx]
        omega
      · have hle := jsIndexOf_le_of_get? xs i a h
        have hmem : a ∈ xs := List.get?_mem h
        have hge := jsIndexOf_nonneg_of_mem hmem
        have hne : jsIndexOf xs a ≠ -1 := by omega
        simp only [jsIndexOf, if_neg hx, if_neg hne]
        push_cast
        omega

/-- C9: `isInMasterStack(window, stackSize)` returns true if and only if,
in the list of the window's group's tileable-or-minimized windows with
minimized windows removed (except the window itself, which is kept even if
minimized), the window appears at an index in `[0, stackSize)`. -/
theorem isInMasterStack_iff (h : Nat → WinData) (store : List Nat) (w : Nat)
    (stackSize : Int) :
    isInMasterStack h store w stackSize = true ↔
      ∃ i : Nat, (i : Int) < stackSize ∧
        ((tiledWindowsIn h store (h w).group).filter
            (fun i => !(h i).minimized || i == w)).get? i = some w := by
  unfold isInMasterStack
  set L := (tiledWindowsIn h store (h w).group).filter
    (fun i => !(h i).minimized || i == w) with hL
  simp only [Bool.and_eq_true, decide_eq_true_eq]
  constructor
  · rintro ⟨hge, hlt⟩
    obtain ⟨l1, l2, hdec, hlen, _⟩ := jsIndexOf_decomp hge
    refine ⟨l1.length, by omega, ?_⟩
    rw [hdec]
    exact get?_append_cons l1 l2 w
  · rintro ⟨i, hi, hget⟩
    have hmem : w ∈ L := List.get?_mem hget
    have hge := jsIndexOf_nonneg_of_mem hmem
    have hle := jsIndexOf_le_of_get? L i w hget
    exact ⟨hge, by omega⟩

/-!
### Engine embedding (engine/index.ts)

The engine state is the window heap (id to attributes), the store order,
the per-surface `numMasterTiles` of the active layout (`none` = the layout
is not stack-capable), and the controller's current window.  The active
layout's geometry algorithm is abstract (`LayoutKind.apply`); per-surface
working areas and the current screens come from an environment record.
Side effects (notifications, arrangement of a surface, per-window phases
of one arrangement) are recorded in an event trace.
-/

/-- Point update of the window heap. -/
def updateHeap (h : Nat → WinData) (i : Nat) (d : WinData) : Nat → WinData :=
  fun j => if j = i then d else h j

/-- Point update of the per-surface master-tile map. -/
def updateMap (m : Nat → Option Int) (s : Nat) (v : Option Int) :
    Nat → Option Int :=
  fun j => if j = s then v else m j

/-- Where a new window is inserted (config `newWindowSpawnLocation`). -/
inductive SpawnLoc where
  | master
  | beforeFocused
  | afterFocused
  | atEnd
  | floating
deriving DecidableEq

/-- The configuration options read by the embedded engine operations.
`limitTileWidth` embeds the source option limitTileWidth followed by
"Ratio" (a number; `0` or negative disables the width clamp). -/
structure Config where
  maximizeSoleTile : Bool
  limitTileWidth : Rat
  monocleMaximize : Bool
  newWindowSpawnLocation : SpawnLoc
  moveBetweenSurfaces : Bool
  screenGapLeft : Int
  screenGapRight : Int
  screenGapTop : Int
  screenGapBottom : Int
deriving DecidableEq

/-- The active layout of a surface, abstractly: its geometry algorithm and
whether it is the monocle layout. -/
structure LayoutKind where
  isMonocle : Bool
  apply : List Nat → Rect → List Rect

/-- Environment: configuration, the current screens, each surface's working
area and active layout. -/
structure Env where
  config : Config
  screens : List Nat
  workingArea : Nat → Rect
  layoutOf : Nat → LayoutKind

/-- The engine's mutable state. -/
structure EngineState where
  heap : Nat → WinData
  store : List Nat
  masterMap : Nat → Option Int
  currentWindow : Option Nat

/-- Observable events of the engine operations. -/
inductive Ev where
  | classifyWin (w : Nat)
  | soleMax (w : Nat)
  | applyLayout
  | clampWin (w : Nat)
  | commitWin (w : Nat)
  | arrangeSurf (s : Nat)
  | notify
deriving DecidableEq

/-- One window's classification (engine/index.ts:417-419): an `Undecided`
window becomes `Floating` if it should float, else `Tiled`; any other
window is left as it is. -/
def classifyStep (d : WinData) : WinData :=
  if d.state = WState.undecided then
    { d with
      state := if d.shouldFloat then WState.floating else WState.tiled }
  else d

/-- The classification loop (engine/index.ts:416-420 and 524-530): apply
`classifyStep` to every window in the list. -/
def classify (h : Nat → WinData) (ws : List Nat) : Nat → WinData :=
  ws.foldl (fun h i => updateHeap h i (classifyStep (h i))) h

/-- `Math.floor(height * config.limitTileWidth...)` over the rationals
(engine/index.ts:441-443): for `q = num/den` in lowest terms with positive
denominator, `floor(v * q)` is exactly the flooring integer division
`(v * num) fdiv den`. -/
def ratFloorMul (v : Int) (q : Rat) : Int := (v * q.num).fdiv (q.den : Int)

/-- `layout.apply` assigns each tileable window its computed rectangle
(the layout algorithms mutate `tiles[i].geometry`; abstractly, the i-th
window receives the i-th rectangle of the returned list). -/
def assignGeoms (h : Nat → WinData) (ws : List Nat) (rs : List Rect) :
    Nat → WinData :=
  (ws.zip rs).foldl
    (fun h p => updateHeap h p.1 { h p.1 with geometry := p.2 }) h

/-- The width-clamp phase (engine/index.ts:436-455): when the limit is
positive and the layout is not monocle, every tiled window among the
tileable list whose width exceeds `floor(workingArea.height * limit)` is
narrowed to that width and re-centered.  The integer division by 2 has a
positive numerator inside the branch, so it agrees with `Math.floor`. -/
def clampRect (maxW : Int) (d : WinData) : WinData :=
  { d with
    geometry := ⟨d.geometry.x + (d.geometry.width - maxW) / 2, d.geometry.y,
      maxW, d.geometry.height⟩ }

def clampWindows (cfg : Config) (lay : LayoutKind) (workingArea : Rect)
    (h : Nat → WinData) (tileableWs : List Nat) : (Nat → WinData) × List Ev :=
  if 0 < cfg.limitTileWidth ∧ lay.isMonocle = false then
    let maxW := ratFloorMul workingArea.height cfg.limitTileWidth
    let targets := tileableWs.filter
      (fun i => tiledWin (h i) && decide (maxW < (h i).geometry.width))
    (targets.foldl (fun h2 i => updateHeap h2 i (clampRect maxW (h2 i))) h,
     targets.map Ev.clampWin)
  else (h, [])

/-- `getTilingArea` (engine/index.ts:1584-1595). -/
def getTilingArea (cfg : Config) (workingArea : Rect) (lay : LayoutKind) :
    Rect :=
  if cfg.monocleMaximize && lay.isMonocle then workingArea
  else workingArea.gap cfg.screenGapLeft cfg.screenGapRight cfg.screenGapTop
    cfg.screenGapBottom

/-- Phase (b) of `arrangeScreen` (engine/index.ts:428-434): either
maximize the sole tile over the full working area (if so configured), or —
when there is at least one tileable window — apply the active layout over
the tiling area. -/
def soleOrApply (env : Env) (h1 : Nat → WinData) (tileableWs : List Nat)
    (surf : Nat) : (Nat → WinData) × List Ev :=
  if env.config.maximizeSoleTile && (tileableWs.length == 1) then
    match tileableWs with
    | i :: _ =>
      (updateHeap h1 i { h1 i with state := WState.maximized, geometry := env.workingArea surf },
       [Ev.soleMax i])
    | [] => (h1, [])
  else if 0 < tileableWs.length then
    (assignGeoms h1 tileableWs
      ((env.layoutOf surf).apply tileableWs
        (getTilingArea env.config (env.workingArea surf) (env.layoutOf surf))),
     [Ev.applyLayout])
  else (h1, [])

/-- `EngineImpl.arrangeScreen` (engine/index.ts:405-458): classify the
visible windows, run the sole-maximize-or-apply phase, then clamp
over-wide tiles. -/
def arrangeScreen (env : Env) (st : EngineState) (surf : Nat) :
    EngineState × List Ev :=
  let visibleWs := visibleWindowsOn st.heap st.store surf
  let h1 := classify st.heap visibleWs
  let tileableWs := visibleTileableWindowsOn h1 st.store surf
  let hev2 := soleOrApply env h1 tileableWs surf
  let h3ev := clampWindows env.config (env.layoutOf surf)
    (env.workingArea surf) hev2.1 tileableWs
  ({ st with heap := h3ev.1 },
   visibleWs.map Ev.classifyWin ++ hev2.2 ++ h3ev.2)

/-- The commit loop's heap effect: each window on the surface gets
`win.surface = surface`. -/
def commitFoldHeap (ws : List Nat) (surf : Nat) (h : Nat → WinData) :
    Nat → WinData :=
  ws.foldl (fun h i => updateHeap h i { h i with surface := some surf }) h

/-- `EngineImpl.commitArrangement` (engine/index.ts:464-477): every window
on the surface (including minimized ones) gets its surface assigned and its
state committed to the host. -/
def commitArrangement (st : EngineState) (surf : Nat) :
    EngineState × List Ev :=
  let ws := allWindowsOn st.heap st.store surf
  ({ st with heap := commitFoldHeap ws surf st.heap }, ws.map Ev.commitWin)

/-- One surface arrangement: `arrangeScreen` followed by
`commitArrangement` (engine/index.ts:384-397). -/
def arrangeOne (env : Env) (st : EngineState) (surf : Nat) :
    EngineState × List Ev :=
  let r1 := arrangeScreen env st surf
  let r2 := commitArrangement r1.1 surf
  (r2.1, Ev.arrangeSurf surf :: r1.2 ++ r2.2)

/-- `EngineImpl.arrange` (engine/index.ts:372-398): an explicit surface is
arranged alone; with no surface (JS `undefined`), every current screen is
arranged in order.  (The `null` early-return branch of the source is never
reached by the operations modelled here.) -/
def arrange (env : Env) (st : EngineState) (screen : Option Nat) :
    EngineState × List Ev :=
  match screen with
  | some surf => arrangeOne env st surf
  | none =>
    env.screens.foldl
      (fun acc surf =>
        let r := arrangeOne env acc.1 surf
        (r.1, acc.2 ++ r.2))
      (st, ([] : List Ev))

/-- The state-marking step at the start of `manage`
(engine/index.ts:495-496): `window.state = WindowState.Undecided`. -/
def manageHeap0 (st : EngineState) (w : Nat) : Nat → WinData :=
  updateHeap st.heap w { st.heap w with state := WState.undecided }

/-- The insertion step of `manage` (engine/index.ts:497-514): unshift for
"master", push-then-move around the focused window for
"beforeFocused"/"afterFocused" (skipped when there is no current window),
plain push otherwise. -/
def manageInsertStore (env : Env) (st : EngineState) (w : Nat) : List Nat :=
  match env.config.newWindowSpawnLocation, st.currentWindow with
  | SpawnLoc.master, _ => wsUnshift st.store w
  | SpawnLoc.beforeFocused, some cur => wsMove (wsPush st.store w) w cur false
  | SpawnLoc.afterFocused, some cur => wsMove (wsPush st.store w) w cur true
  | _, _ => wsPush st.store w

/-- `EngineImpl.manage` (engine/index.ts:493-549): no-op for policy-ignored
windows; otherwise mark `Undecided`, insert per configuration, persist
(no engine-state effect), return early when the window has no surface,
classify the surface's visible windows, and if the new window landed inside
the master stack of a stack-capable layout, move it to the stack boundary
and grow `numMasterTiles`.  The trailing `arrangeScreen`/
`commitArrangement` calls of the source are commented out, so `manage`
emits no events. -/
def manageClassified (env : Env) (st : EngineState) (w surf : Nat) :
    Nat → WinData :=
  classify (manageHeap0 st w)
    (visibleWindowsOn (manageHeap0 st w) (manageInsertStore env st w) surf)

/-- The store after the master-stack relocation of `manage`
(engine/index.ts:532-544): `masterStack[numMasterTiles]` is `undefined`
when the index is out of bounds (in particular when `numMasterTiles` is
negative), and `move` with an absent destination is a no-op. -/
def manageMasterStore (env : Env) (st : EngineState) (w surf : Nat)
    (n : Int) : List Nat :=
  match (if 0 ≤ n then
      (tileableWindowsOn (manageClassified env st w surf)
        (manageInsertStore env st w) surf).get? n.toNat
    else none) with
  | some dest => wsMove (manageInsertStore env st w) w dest false
  | none => manageInsertStore env st w

def manage (env : Env) (st : EngineState) (w : Nat) : EngineState × List Ev :=
  if (st.heap w).shouldIgnore then (st, [])
  else
    match (st.heap w).surface with
    | none => ({ st with heap := manageHeap0 st w, store := manageInsertStore env st w }, [])
    | some surf =>
      match st.masterMap surf with
      | some n =>
        if isInMasterStack (manageClassified env st w surf)
            (manageInsertStore env st w) w n then
          ({ st with heap := manageClassified env st w surf, store := manageMasterStore env st w surf n, masterMap := updateMap st.masterMap surf (some (n + 1)) }, [])
        else ({ st with heap := manageClassified env st w surf, store := manageInsertStore env st w }, [])
      | none => ({ st with heap := manageClassified env st w surf, store := manageInsertStore env st w }, [])

/-- `EngineImpl.unmanage` (engine/index.ts:551-570): shrink
`numMasterTiles` if the window sat in the master stack of a stack-capable
layout, remove it from the store, and re-arrange its prior surface
(skipped when it had none). -/
def unmanageDecrement (st : EngineState) (w : Nat) : EngineState :=
  match (st.heap w).surface with
  | some surf =>
    match st.masterMap surf with
    | some n =>
      if isInMasterStack st.heap st.store w n then
        { st with masterMap := updateMap st.masterMap surf (some (n - 1)) }
      else st
    | none => st
  | none => st

def unmanage (env : Env) (st : EngineState) (w : Nat) : EngineState × List Ev :=
  match (st.heap w).surface with
  | none =>
    ({ unmanageDecrement st w with
       store := wsRemove (unmanageDecrement st w).store w }, [])
  | some surf =>
    arrange env
      { unmanageDecrement st w with
        store := wsRemove (unmanageDecrement st w).store w } (some surf)

/-!
### Directional neighbor search (engine/index.ts:1126-1221) and focusDir
-/

/-- Modelled from the spec: `overlap` of util/func.ts (not in the provided
sources) — the two intervals share at least one interior point. -/
def overlapB (min1 max1 min2 max2 : Int) : Bool :=
  decide (min2 < max1) && decide (min1 < max2)

/-- Search directions. -/
inductive Dir where
  | up
  | down
  | left
  | right
deriving DecidableEq

/-- `EngineImpl.getNeighborCandidates` (engine/index.ts:1126-1152) over an
explicit window list: keep the windows strictly past the basis edge in the
search axis (via the sign trick of the source) that overlap the basis in
the perpendicular axis. -/
def neighborCandidates (h : Nat → WinData) (ws : List Nat) (basis : Rect)
    (dir : Dir) : List Nat :=
  let sign : Int := if dir = Dir.down ∨ dir = Dir.right then 1 else -1
  if dir = Dir.up ∨ dir = Dir.down then
    ws.filter (fun i =>
      decide (basis.y * sign < (h i).geometry.y * sign) &&
      overlapB basis.x basis.maxX (h i).geometry.x (h i).geometry.maxX)
  else
    ws.filter (fun i =>
      decide (basis.x * sign < (h i).geometry.x * sign) &&
      overlapB basis.y basis.maxY (h i).geometry.y (h i).geometry.maxY)

/-- The minimum of a list, seeded with its first element.  The source
reduces with initial value `Infinity` for the `down`/`right` directions;
on the non-empty lists this function is applied to (the caller returns
early when there are no candidates) that reduce equals the plain minimum
embedded here. -/
def foldMinSeed (xs : List Int) : Int :=
  match xs with
  | [] => 0
  | x :: rest => rest.foldl min x

/-- `EngineImpl.getClosestRelativWindowCorner` (engine/index.ts:1154-1173):
for `up`/`left` the reduce starts at `0` (not at minus infinity), exactly
as in the source; for `down`/`right` it starts at `Infinity`, embedded via
`foldMinSeed`. -/
def closestRelativWindowCorner (geos : List Rect) (dir : Dir) : Int :=
  match dir with
  | Dir.up => (geos.map Rect.maxY).foldl (fun acc v => max v acc) 0
  | Dir.down => foldMinSeed (geos.map (fun g => g.y))
  | Dir.left => (geos.map Rect.maxX).foldl (fun acc v => max v acc) 0
  | Dir.right => foldMinSeed (geos.map (fun g => g.x))

/-- `EngineImpl.getClosestRelativeWindow` (engine/index.ts:1175-1193): keep
the windows whose near edge is within the 5-pixel band of the closest
corner. -/
def getClosestRelativeWindow (h : Nat → WinData) (windowArray : List Nat)
    (dir : Dir) (closestPoint : Int) : List Nat :=
  windowArray.filter (fun i =>
    match dir with
    | Dir.up => decide (closestPoint - 5 < (h i).geometry.maxY)
    | Dir.down => decide ((h i).geometry.y < closestPoint + 5)
    | Dir.left => decide (closestPoint - 5 < (h i).geometry.maxX)
    | Dir.right => decide ((h i).geometry.x < closestPoint + 5))

/-- `closestWindows.sort((a, b) => b.timestamp - a.timestamp)[0]`: the
first element of the stable descending sort, i.e. the earliest listed
window with the maximal timestamp. -/
def mostRecent (h : Nat → WinData) (l : List Nat) : Option Nat :=
  l.foldl
    (fun acc i =>
      match acc with
      | none => some i
      | some j => if (h j).timestamp < (h i).timestamp then some i
                  else some j)
    none

/-- `EngineImpl.getNeighborByDirection` (engine/index.ts:1195-1221). -/
def getNeighborByDirection (h : Nat → WinData) (ws : List Nat) (basis : Rect)
    (dir : Dir) : Option Nat :=
  if (neighborCandidates h ws basis dir).length == 0 then none
  else
    mostRecent h
      (getClosestRelativeWindow h (neighborCandidates h ws basis dir) dir
        (closestRelativWindowCorner
          ((neighborCandidates h ws basis dir).map (fun i => (h i).geometry))
          dir))

/-- Modelled from the spec: the all-screen candidate list used when
cross-surface movement is enabled (the source forwards
`controller.screens()` to `WindowStore.visibleTiledWindows`); only the
surface-restricted branch is exercised by the claims below. -/
def visibleTiledWindowsAll (env : Env) (st : EngineState) : List Nat :=
  st.store.filter (fun i => tiledWin (st.heap i) &&
    env.screens.any (fun s => visibleOn (st.heap i) s))

/-- `EngineImpl.focusDir` (engine/index.ts:667-692): with no current
window, focus the first visible window of the current surface; otherwise
search a neighbor (across surfaces when `moveBetweenSurfaces` is set,
else on the current surface) and focus it when found. -/
def focusDir (env : Env) (st : EngineState) (dir : Dir) (curSurf : Nat) :
    EngineState :=
  match st.currentWindow with
  | none =>
    match visibleWindowsOn st.heap st.store curSurf with
    | [] => st
    | t :: _ => { st with currentWindow := some t }
  | some w =>
    let nb :=
      if env.config.moveBetweenSurfaces then
        getNeighborByDirection st.heap (visibleTiledWindowsAll env st)
          (st.heap w).geometry dir
      else
        getNeighborByDirection st.heap
          (visibleTiledWindowsOn st.heap st.store curSurf)
          (st.heap w).geometry dir
    match nb with
    | some n => { st with currentWindow := some n }
    | none => st

/-!
### Driver event dispatch (driver/index.ts:543-586)

`connect` wraps every handler in `enter`; `enter` drops the call when the
shared `entered` flag is already set, otherwise sets the flag, runs the
handler inside try/catch, and clears the flag in the `finally` block.  A
handler body is modelled as a list of steps: plain work, a nested host
signal carrying its own handler body (delivered through the same `enter`
wrapper), or a raised exception (which skips the rest of the body and is
caught at the dispatch boundary).
-/

/-- One step of a handler body. -/
inductive HStep where
  | work : HStep
  | fault : HStep
  | signal : List HStep → HStep

/-- Observable dispatch events. -/
inductive DEv where
  | invoked
  | dropped
  | workEv
  | caught
deriving DecidableEq

mutual
/-- `DriverImpl.enter` applied to a delivered signal (driver/index.ts:
572-586): if `entered` is set the delivery is dropped (handler not
invoked, nothing queued); otherwise the flag is set, the body runs, a
raised exception is caught and logged, and the flag is cleared on every
path. -/
def deliver (entered : Bool) (body : List HStep) : Bool × List DEv :=
  if entered then (entered, [DEv.dropped])
  else
    let r := runBody body
    (false, DEv.invoked :: (r.1 ++ if r.2 then [DEv.caught] else []))
termination_by (sizeOf body, 1)

/-- Run a handler body with the `entered` flag set; returns the trace and
whether the body raised.  A nested `signal` goes through `deliver` with
`entered = true`; a `fault` abandons the remaining steps. -/
def runBody : List HStep → List DEv × Bool
  | [] => ([], false)
  | HStep.work :: rest =>
    let r := runBody rest
    (DEv.workEv :: r.1, r.2)
  | HStep.fault :: _ => ([], true)
  | HStep.signal body :: rest =>
    let d := deliver true body
    let r := runBody rest
    (d.2 ++ r.1, r.2)
termination_by l => (sizeOf l, 0)
end

/-- C8: while the shared re-entrancy flag is set, any delivered signal is
dropped entirely — the handler is not invoked, nothing is queued, and the
state is unchanged; for every invocation from the idle state the flag is
cleared when the handler returns, whether it completed or raised (the
exception being caught and the body cut short at the fault); hence the
signal following any single delivery — including a failing one — is
processed exactly as from a clean state. -/
theorem enter_reentrancy_guard :
    (∀ body : List HStep, deliver true body = (true, [DEv.dropped])) ∧
    (∀ body : List HStep, (deliver false body).1 = false) ∧
    (∀ rest : List HStep,
      (deliver false (HStep.fault :: rest)).2 = [DEv.invoked, DEv.caught]) ∧
    (∀ body1 body2 : List HStep,
      deliver (deliver false body1).1 body2 = deliver false body2) := by
  have hdrop : ∀ body : List HStep, deliver true body = (true, [DEv.dropped]) := by
    intro body
    simp [deliver]
  have hclear : ∀ body : List HStep, (deliver false body).1 = false := by
    intro body
    simp [deliver]
  refine ⟨hdrop, hclear, ?_, ?_⟩
  · intro rest
    simp [deliver, runBody]
  · intro b1 b2
    rw [hclear b1]

/-! ### Frame lemmas of the arrangement pipeline -/

theorem updFold_proj {α : Type} (p : WinData → α) (F : WinData → WinData)
    (hF : ∀ d, p (F d) = p d) :
    ∀ (ws : List Nat) (h : Nat → WinData) (i : Nat),
      p ((ws.foldl (fun h2 j => updateHeap h2 j (F (h2 j))) h) i) = p (h i) := by
  intro ws
  induction ws with
  | nil => intro h i; rfl
  | cons j rest ih =>
    intro h i
    show p ((rest.foldl _ (updateHeap h j (F (h j)))) i) = _
    rw [ih]
    unfold updateHeap
    by_cases hij : i = j
    · simp [hij, hF]
    · simp [hij]

theorem updFold2_proj {α β : Type} (p : WinData → α) (F : WinData → β → WinData)
    (hF : ∀ d b, p (F d b) = p d) :
    ∀ (ps : List (Nat × β)) (h : Nat → WinData) (i : Nat),
      p ((ps.foldl (fun h2 q => updateHeap h2 q.1 (F (h2 q.1) q.2)) h) i) =
        p (h i) := by
  intro ps
  induction ps with
  | nil => intro h i; rfl
  | cons q rest ih =>
    intro h i
    show p ((rest.foldl _ (updateHeap h q.1 (F (h q.1) q.2))) i) = _
    rw [ih]
    unfold updateHeap
    by_cases hij : i = q.1
    · simp [hij, hF]
    · simp [hij]

theorem classify_surface (h : Nat → WinData) (ws : List Nat) (i : Nat) :
    ((classify h ws) i).surface = (h i).surface := by
  refine updFold_proj WinData.surface classifyStep ?_ ws h i
  intro d
  unfold classifyStep
  split <;> rfl

theorem assignGeoms_surface (h : Nat → WinData) (ws : List Nat)
    (rs : List Rect) (i : Nat) :
    ((assignGeoms h ws rs) i).surface = (h i).surface := by
  refine updFold2_proj WinData.surface (fun d r => { d with geometry := r })
    (fun _ _ => rfl) (ws.zip rs) h i

theorem clampWindows_surface (cfg : Config) (lay : LayoutKind) (wa : Rect)
    (h : Nat → WinData) (ts : List Nat) (i : Nat) :
    (((clampWindows cfg lay wa h ts).1) i).surface = (h i).surface := by
  unfold clampWindows
  split
  · exact updFold_proj WinData.surface
      (clampRect (ratFloorMul wa.height cfg.limitTileWidth))
      (fun _ => rfl) _ h i
  · rfl

theorem updateHeap_surface (h : Nat → WinData) (j : Nat) (d : WinData)
    (hd : d.surface = (h j).surface) (i : Nat) :
    ((updateHeap h j d) i).surface = (h i).surface := by
  unfold updateHeap
  by_cases hij : i = j
  · rw [if_pos hij, hd, hij]
  · rw [if_neg hij]

theorem soleOrApply_surface (env : Env) (h1 : Nat → WinData)
    (ts : List Nat) (surf : Nat) (i : Nat) :
    ((soleOrApply env h1 ts surf).1 i).surface = (h1 i).surface := by
  unfold soleOrApply
  split
  · split
    · refine updateHeap_surface h1 _ _ ?_ i
      rfl
    · rfl
  · split
    · rw [assignGeoms_surface]
    · rfl

theorem arrangeScreen_surface (env : Env) (st : EngineState) (surf : Nat)
    (i : Nat) :
    (((arrangeScreen env st surf).1).heap i).surface = (st.heap i).surface := by
  unfold arrangeScreen
  simp only
  rw [clampWindows_surface, soleOrApply_surface, classify_surface]

theorem commitFoldHeap_surface :
    ∀ (ws : List Nat) (surf : Nat) (h : Nat → WinData) (i : Nat),
      ((commitFoldHeap ws surf h) i).surface =
        if i ∈ ws then some surf else (h i).surface := by
  intro ws
  induction ws with
  | nil =>
    intro surf h i
    simp [commitFoldHeap]
  | cons j rest ih =>
    intro surf h i
    show ((commitFoldHeap rest surf
      (updateHeap h j { h j with surface := some surf })) i).surface = _
    rw [ih]
    unfold updateHeap
    by_cases hir : i ∈ rest
    · simp [hir]
    · by_cases hij : i = j
      · simp [hir, hij]
      · simp [hir, hij]

theorem commitFoldHeap_geometry (ws : List Nat) (surf : Nat)
    (h : Nat → WinData) (i : Nat) :
    ((commitFoldHeap ws surf h) i).geometry = (h i).geometry := by
  exact updFold_proj WinData.geometry (fun d => { d with surface := some surf })
    (fun _ => rfl) ws h i

theorem commitFoldHeap_state (ws : List Nat) (surf : Nat)
    (h : Nat → WinData) (i : Nat) :
    ((commitFoldHeap ws surf h) i).state = (h i).state := by
  exact updFold_proj WinData.state (fun d => { d with surface := some surf })
    (fun _ => rfl) ws h i

theorem arrangeOne_surface (env : Env) (st : EngineState) (s : Nat) (w : Nat) :
    (((arrangeOne env st s).1).heap w).surface = (st.heap w).surface := by
  show ((commitFoldHeap (allWindowsOn (arrangeScreen env st s).1.heap
    (arrangeScreen env st s).1.store s) s
    (arrangeScreen env st s).1.heap) w).surface = _
  rw [commitFoldHeap_surface]
  by_cases hm : w ∈ allWindowsOn (arrangeScreen env st s).1.heap
      (arrangeScreen env st s).1.store s
  · rw [if_pos hm]
    have hon := (List.mem_filter.mp hm).2
    unfold onSurface at hon
    have := arrangeScreen_surface env st s w
    rw [beq_iff_eq] at hon
    rw [← this, hon]
  · rw [if_neg hm]
    exact arrangeScreen_surface env st s w

theorem arrangeOne_store (env : Env) (st : EngineState) (s : Nat) :
    (arrangeOne env st s).1.store = st.store ∧
      (arrangeOne env st s).1.masterMap = st.masterMap ∧
      (arrangeOne env st s).1.currentWindow = st.currentWindow :=
  ⟨rfl, rfl, rfl⟩

theorem arrange_frame (env : Env) :
    ∀ (screen : Option Nat) (st : EngineState),
      (arrange env st screen).1.store = st.store ∧
        (arrange env st screen).1.masterMap = st.masterMap ∧
        (arrange env st screen).1.currentWindow = st.currentWindow ∧
        ∀ w, (((arrange env st screen).1).heap w).surface =
          (st.heap w).surface := by
  intro screen
  match screen with
  | some s =>
    intro st
    exact ⟨rfl, rfl, rfl, fun w => arrangeOne_surface env st s w⟩
  | none =>
    show ∀ st, (arrange env st none).1.store = st.store ∧ _
    have main : ∀ (ss : List Nat) (acc : EngineState × List Ev),
        (ss.foldl (fun acc surf =>
          let r := arrangeOne env acc.1 surf
          (r.1, acc.2 ++ r.2)) acc).1.store = acc.1.store ∧
        (ss.foldl (fun acc surf =>
          let r := arrangeOne env acc.1 surf
          (r.1, acc.2 ++ r.2)) acc).1.masterMap = acc.1.masterMap ∧
        (ss.foldl (fun acc surf =>
          let r := arrangeOne env acc.1 surf
          (r.1, acc.2 ++ r.2)) acc).1.currentWindow = acc.1.currentWindow ∧
        ∀ w, ((ss.foldl (fun acc surf =>
          let r := arrangeOne env acc.1 surf
          (r.1, acc.2 ++ r.2)) acc).1.heap w).surface =
            (acc.1.heap w).surface := by
      intro ss
      induction ss with
      | nil => intro acc; exact ⟨rfl, rfl, rfl, fun _ => rfl⟩
      | cons s rest ih =>
        intro acc
        have h2 := ih ((arrangeOne env acc.1 s).1,
          acc.2 ++ (arrangeOne env acc.1 s).2)
        exact ⟨h2.1, h2.2.1, h2.2.2.1, fun w =>
          (h2.2.2.2 w).trans (arrangeOne_surface env acc.1 s w)⟩
    intro st
    exact main env.screens (st, [])

theorem updateHeap_self (h : Nat → WinData) (i : Nat) :
    updateHeap h i (h i) = h := by
  funext j
  unfold updateHeap
  by_cases hj : j = i
  · simp [hj]
  · simp [hj]


theorem clampWindows_disabled {cfg : Config} (hq : cfg.limitTileWidth ≤ 0)
    (lay : LayoutKind) (wa : Rect) (h : Nat → WinData) (ts : List Nat) :
    clampWindows cfg lay wa h ts = (h, []) := by
  unfold clampWindows
  rw [if_neg]
  rintro ⟨h1, _⟩
  exact absurd h1 (not_lt.mpr hq)

/-- C3 (amended): for a surface whose post-classification tileable list is
exactly one window, when the max-tile-width clamp is not configured
(`limitTileWidth... <= 0`): with sole-tile-maximize enabled, arranging the
surface sets that window's geometry to the full working area and its state
to `Maximized`; with it disabled, the window's geometry is the first
rectangle the active layout's `apply` computes for that single window over
the tiling area.  (With a positive width-limit the clamp phase can
subsequently narrow and re-center even the sole maximized tile, as the
counterexample shows.) -/
theorem arrange_sole_tile (env : Env) (st : EngineState) (s w : Nat)
    (hlimit : env.config.limitTileWidth ≤ 0)
    (hsole : visibleTileableWindowsOn
      (classify st.heap (visibleWindowsOn st.heap st.store s)) st.store s =
        [w]) :
    (env.config.maximizeSoleTile = true →
      ((arrangeOne env st s).1.heap w).geometry = env.workingArea s ∧
        ((arrangeOne env st s).1.heap w).state = WState.maximized) ∧
    (env.config.maximizeSoleTile = false →
      ∀ r rs, (env.layoutOf s).apply [w]
          (getTilingArea env.config (env.workingArea s) (env.layoutOf s)) =
            r :: rs →
        ((arrangeOne env st s).1.heap w).geometry = r) := by
  have hcg : ((arrangeOne env st s).1.heap w).geometry =
      ((arrangeScreen env st s).1.heap w).geometry :=
    commitFoldHeap_geometry _ _ _ _
  have hcs : ((arrangeOne env st s).1.heap w).state =
      ((arrangeScreen env st s).1.heap w).state :=
    commitFoldHeap_state _ _ _ _
  constructor
  · intro hm
    have hheap : (arrangeScreen env st s).1.heap w =
        { classify st.heap (visibleWindowsOn st.heap st.store s) w with
          state := WState.maximized, geometry := env.workingArea s } := by
      simp only [arrangeScreen, soleOrApply, hsole, hm,
        clampWindows_disabled hlimit]
      simp [updateHeap]
    rw [hcg, hcs, hheap]
    exact ⟨rfl, rfl⟩
  · intro hm r rs happly
    have hheap : (arrangeScreen env st s).1.heap w =
        { classify st.heap (visibleWindowsOn st.heap st.store s) w with
          geometry := r } := by
      simp only [arrangeScreen, soleOrApply, hsole, hm,
        clampWindows_disabled hlimit, happly]
      simp [assignGeoms, updateHeap]
    rw [hcg, hheap]

def c3Heap : Nat → WinData :=
  fun _ => ⟨0, WState.tiled, false, false, false, some 0, ⟨0, 0, 300, 100⟩, 0⟩

def c3Env : Env :=
  { config :=
      { maximizeSoleTile := true, limitTileWidth := 1,
        monocleMaximize := false, newWindowSpawnLocation := SpawnLoc.atEnd,
        moveBetweenSurfaces := false, screenGapLeft := 0, screenGapRight := 0,
        screenGapTop := 0, screenGapBottom := 0 },
    screens := [0],
    workingArea := fun _ => ⟨0, 0, 300, 100⟩,
    layoutOf := fun _ =>
      { isMonocle := false,
        apply := fun ws _ => ws.map (fun _ => ⟨0, 0, 10, 10⟩) } }

def c3State : EngineState :=
  { heap := c3Heap, store := [0], masterMap := fun _ => none,
    currentWindow := none }

/-- C3 counterexample: surface `0` holds exactly one tileable window and
sole-tile-maximize is enabled, yet arranging leaves the window's geometry
different from the full working area `(0,0,300,100)`: the configured
width-limit (here `1`, so `maxWidth = floor(100 * 1) = 100`) clamps and
re-centers the maximized sole tile to `(100,0,100,100)` after the
sole-maximize branch ran. -/
theorem arrange_sole_tile_counterexample :
    c3Env.config.maximizeSoleTile = true ∧
      visibleTileableWindowsOn
        (classify c3State.heap
          (visibleWindowsOn c3State.heap c3State.store 0)) c3State.store 0 =
        [0] ∧
      ((arrangeOne c3Env c3State 0).1.heap 0).geometry ≠
        c3Env.workingArea 0 ∧
      ((arrangeOne c3Env c3State 0).1.heap 0).geometry =
        ⟨100, 0, 100, 100⟩ := by
  refine ⟨rfl, by decide, by decide, by decide⟩

def c3wEnv : Env :=
  { config :=
      { maximizeSoleTile := true, limitTileWidth := 0,
        monocleMaximize := false, newWindowSpawnLocation := SpawnLoc.atEnd,
        moveBetweenSurfaces := false, screenGapLeft := 0, screenGapRight := 0,
        screenGapTop := 0, screenGapBottom := 0 },
    screens := [0],
    workingArea := fun _ => ⟨0, 0, 300, 100⟩,
    layoutOf := fun _ =>
      { isMonocle := false,
        apply := fun ws _ => ws.map (fun _ => ⟨0, 0, 10, 10⟩) } }

/-- Witness for C3 (amended): with the width clamp unconfigured and
sole-tile-maximize enabled, the sole tileable window ends maximized over
the full working area. -/
theorem arrange_sole_tile_witness :
    c3wEnv.config.limitTileWidth ≤ 0 ∧
      visibleTileableWindowsOn
        (classify c3State.heap
          (visibleWindowsOn c3State.heap c3State.store 0)) c3State.store 0 =
        [0] ∧
      (((arrangeOne c3wEnv c3State 0).1.heap 0).geometry =
          c3wEnv.workingArea 0 ∧
        ((arrangeOne c3wEnv c3State 0).1.heap 0).state = WState.maximized) :=
  ⟨by decide, by decide,
    (arrange_sole_tile c3wEnv c3State 0 0 (by decide) (by decide)).1 rfl⟩

/-! ### Insertion positions of `manage` -/

theorem jsIndexOf_push_self {l : List Nat} {w : Nat} (hw : w ∉ l) :
    jsIndexOf (l ++ [w]) w = (l.length : Int) := by
  have h : jsIndexOf (l ++ w :: ([] : List Nat)) w = (l.length : Int) :=
    jsIndexOf_append_cons_self hw
  simpa using h

theorem jsRemoveAt_push_self (l : List Nat) (w : Nat) :
    jsRemoveAt (l ++ [w]) l.length = l := by
  have h := eraseIdx_append_cons l [] w
  simpa [jsRemoveAt] using h

theorem wsMove_push_before {l l1 l2 : List Nat} {w cur : Nat} (hw : w ∉ l)
    (hdec : l = l1 ++ cur :: l2) (hml1 : cur ∉ l1) :
    wsMove (wsPush l w) w cur false = l1 ++ w :: cur :: l2 := by
  have hsrc : jsIndexOf (l ++ [w]) w = (l.length : Int) := jsIndexOf_push_self hw
  have hdst : jsIndexOf (l ++ [w]) cur = (l1.length : Int) := by
    rw [hdec, List.append_assoc, List.cons_append]
    exact jsIndexOf_append_cons_self hml1
  simp only [wsMove, wsPush, if_true, if_false]
  rw [hsrc, hdst, if_neg (by omega)]
  have ht1 : ((l.length : Int)).toNat = l.length := by omega
  have ht2 : ((l1.length : Int)).toNat = l1.length := by omega
  rw [ht1, ht2, jsRemoveAt_push_self, hdec]
  exact jsInsertAt_append l1 (cur :: l2) w

theorem wsMove_push_after {l l1 l2 : List Nat} {w cur : Nat} (hw : w ∉ l)
    (hdec : l = l1 ++ cur :: l2) (hml1 : cur ∉ l1) :
    wsMove (wsPush l w) w cur true = l1 ++ cur :: w :: l2 := by
  have hsrc : jsIndexOf (l ++ [w]) w = (l.length : Int) := jsIndexOf_push_self hw
  have hdst : jsIndexOf (l ++ [w]) cur = (l1.length : Int) := by
    rw [hdec, List.append_assoc, List.cons_append]
    exact jsIndexOf_append_cons_self hml1
  simp only [wsMove, wsPush, if_true, if_false]
  rw [hsrc, hdst, if_neg (by omega)]
  have ht1 : ((l.length : Int)).toNat = l.length := by omega
  have ht2 : ((l1.length : Int)).toNat = l1.length := by omega
  rw [ht1, ht2, jsRemoveAt_push_self, hdec]
  have h := jsInsertAt_append (l1 ++ [cur]) l2 w
  simp only [List.length_append, List.length_singleton] at h
  rw [List.append_assoc, List.singleton_append] at h
  rw [h, List.append_assoc, List.singleton_append]

theorem wsMove_push_self {l : List Nat} {w : Nat} (hw : w ∉ l) (aft : Bool) :
    wsMove (wsPush l w) w w aft = l ++ [w] := by
  have hsrc : jsIndexOf (l ++ [w]) w = (l.length : Int) := jsIndexOf_push_self hw
  simp only [wsMove, wsPush]
  rw [hsrc, if_neg (by omega)]
  have ht1 : ((l.length : Int)).toNat = l.length := by omega
  rw [ht1, jsRemoveAt_push_self]
  cases aft with
  | false =>
    simp only [if_true, if_false, Bool.false_eq_true, if_neg]
    exact jsInsertAt_of_length_le (Nat.le_refl _) w
  | true =>
    simp only [if_true, if_false]
    exact jsInsertAt_of_length_le (Nat.le_succ _) w

theorem wsMove_push_nocur {l : List Nat} {w cur : Nat} (hcur : cur ∉ l)
    (hne : cur ≠ w) (aft : Bool) :
    wsMove (wsPush l w) w cur aft = l ++ [w] := by
  have hno : cur ∉ l ++ [w] := by
    intro hc
    rcases List.mem_append.mp hc with h | h
    · exact hcur h
    · exact hne (List.mem_singleton.mp h)
  simp only [wsMove, wsPush]
  rw [if_pos (Or.inr (jsIndexOf_eq_neg_one_iff.mpr hno))]

/-- Removing a freshly inserted window returns the store to its previous
contents, whatever the configured spawn location. -/
theorem wsRemove_manageInsert (env : Env) (st : EngineState) (w : Nat)
    (hw : w ∉ st.store) :
    wsRemove (manageInsertStore env st w) w = st.store := by
  have hpush : wsRemove (st.store ++ [w]) w = st.store := by
    have h : wsRemove (st.store ++ w :: ([] : List Nat)) w = st.store ++ [] :=
      wsRemove_append_cons hw
    simpa using h
  have hunshift : wsRemove (w :: st.store) w = st.store := by
    have h : wsRemove (([] : List Nat) ++ w :: st.store) w = [] ++ st.store :=
      wsRemove_append_cons (List.not_mem_nil w)
    simpa using h
  have hfocused : ∀ (cur : Nat) (aft : Bool),
      wsRemove (wsMove (wsPush st.store w) w cur aft) w = st.store := by
    intro cur aft
    by_cases hcw : cur = w
    · subst hcw
      rw [wsMove_push_self hw aft]
      exact hpush
    · by_cases hcur : cur ∈ st.store
      · obtain ⟨l1, l2, hdec, _, hml1⟩ :=
          jsIndexOf_decomp (jsIndexOf_nonneg_of_mem hcur)
        have hwl1 : w ∉ l1 := fun hc =>
          hw (hdec ▸ List.mem_append.mpr (Or.inl hc))
        cases aft with
        | false =>
          rw [wsMove_push_before hw hdec hml1]
          rw [wsRemove_append_cons hwl1, ← hdec]
        | true =>
          rw [wsMove_push_after hw hdec hml1]
          have hwl1c : w ∉ l1 ++ [cur] := by
            intro hc
            rcases List.mem_append.mp hc with h | h
            · exact hwl1 h
            · exact hcw (List.mem_singleton.mp h).symm
          have h2 : l1 ++ cur :: w :: l2 = (l1 ++ [cur]) ++ w :: l2 := by
            rw [List.append_assoc, List.singleton_append]
          rw [h2, wsRemove_append_cons hwl1c, List.append_assoc,
            List.singleton_append, ← hdec]
      · rw [wsMove_push_nocur hcur hcw aft]
        exact hpush
  unfold manageInsertStore
  cases hloc : env.config.newWindowSpawnLocation with
  | master => cases hcw : st.currentWindow <;> exact hunshift
  | beforeFocused =>
    cases hcw : st.currentWindow with
    | none => exact hpush
    | some cur => exact hfocused cur false
  | afterFocused =>
    cases hcw : st.currentWindow with
    | none => exact hpush
    | some cur => exact hfocused cur true
  | atEnd => cases hcw : st.currentWindow <;> exact hpush
  | floating => cases hcw : st.currentWindow <;> exact hpush

def c5Heap : Nat → WinData :=
  fun _ => ⟨0, WState.tiled, false, false, false, some 0, ⟨0, 0, 100, 100⟩, 0⟩

def c5Env : Env :=
  { config :=
      { maximizeSoleTile := false, limitTileWidth := 0,
        monocleMaximize := false,
        newWindowSpawnLocation := SpawnLoc.beforeFocused,
        moveBetweenSurfaces := false, screenGapLeft := 0, screenGapRight := 0,
        screenGapTop := 0, screenGapBottom := 0 },
    screens := [0],
    workingArea := fun _ => ⟨0, 0, 100, 100⟩,
    layoutOf := fun _ =>
      { isMonocle := false,
        apply := fun ws _ => ws.map (fun _ => ⟨0, 0, 10, 10⟩) } }

def c5State : EngineState :=
  { heap := c5Heap, store := [1], masterMap := fun _ => none,
    currentWindow := some 1 }

/-- C5 counterexample: window `0` is not policy-ignored and lives on
surface `0`, yet `manage` emits no arrangement of that surface — its event
trace is empty, because the `arrangeScreen`/`commitArrangement` calls at
the end of the source `manage` are commented out
(engine/index.ts:546-547). -/
theorem manage_no_arrange_counterexample :
    (c5State.heap 0).shouldIgnore = false ∧
      (c5State.heap 0).surface = some 0 ∧
      (manage c5Env c5State 0).2 = [] ∧
      Ev.arrangeSurf 0 ∉ (manage c5Env c5State 0).2 := by
  refine ⟨rfl, rfl, by decide, by decide⟩

/-- C5 (amended): `manage(window)` is a no-op for a policy-ignored window;
for a non-ignored window it inserts the window into the Window Store at the
configured position — front for "master", end for "end"/"floating" (and
when no window is focused), immediately before/after the focused window for
"beforeFocused"/"afterFocused" — but it does **not** itself trigger
arrangement of the window's surface (its event trace is empty; the
re-arrangement is the caller's duty).  The insertion-position part is
stated for a fresh window when the active layout is not stack-capable
(otherwise the master-stack bookkeeping may additionally relocate the
window to the stack boundary). -/
theorem manage_policy_and_insert (env : Env) (st : EngineState) (w s : Nat) :
    ((st.heap w).shouldIgnore = true → manage env st w = (st, [])) ∧
    ((st.heap w).shouldIgnore = false → (manage env st w).2 = []) ∧
    ((st.heap w).shouldIgnore = false → (st.heap w).surface = some s →
      st.masterMap s = none →
      (manage env st w).1.store = manageInsertStore env st w) ∧
    (env.config.newWindowSpawnLocation = SpawnLoc.master →
      manageInsertStore env st w = w :: st.store) ∧
    ((env.config.newWindowSpawnLocation = SpawnLoc.atEnd ∨
      env.config.newWindowSpawnLocation = SpawnLoc.floating) →
      manageInsertStore env st w = st.store ++ [w]) ∧
    (∀ cur l1 l2, env.config.newWindowSpawnLocation = SpawnLoc.beforeFocused →
      st.currentWindow = some cur → w ∉ st.store → cur ≠ w →
      st.store = l1 ++ cur :: l2 → cur ∉ l1 →
      manageInsertStore env st w = l1 ++ w :: cur :: l2) ∧
    (∀ cur l1 l2, env.config.newWindowSpawnLocation = SpawnLoc.afterFocused →
      st.currentWindow = some cur → w ∉ st.store → cur ≠ w →
      st.store = l1 ++ cur :: l2 → cur ∉ l1 →
      manageInsertStore env st w = l1 ++ cur :: w :: l2) := by
  refine ⟨?_, ?_, ?_, ?_, ?_, ?_, ?_⟩
  · intro hig
    unfold manage
    rw [if_pos hig]
  · intro hig
    unfold manage
    rw [if_neg (by simp [hig])]
    repeat' split
    all_goals rfl
  · intro hig hs hmm
    unfold manage
    rw [if_neg (by simp [hig])]
    simp only [hs, hmm]
  · intro hloc
    unfold manageInsertStore
    rw [hloc]
    cases st.currentWindow <;> rfl
  · rintro (hloc | hloc) <;>
      (unfold manageInsertStore; rw [hloc]; cases st.currentWindow <;> rfl)
  · intro cur l1 l2 hloc hcw hwst hne hdec hml1
    unfold manageInsertStore
    rw [hloc, hcw]
    exact wsMove_push_before hwst hdec hml1
  · intro cur l1 l2 hloc hcw hwst hne hdec hml1
    unfold manageInsertStore
    rw [hloc, hcw]
    exact wsMove_push_after hwst hdec hml1

/-- Witness for C5 (amended) at a concrete state: a fresh non-ignored
window `0` managed under the "beforeFocused" policy lands immediately
before the focused window `1`, and `manage` emits no events. -/
theorem manage_policy_and_insert_witness :
    (c5State.heap 0).shouldIgnore = false ∧
      (c5State.heap 0).surface = some 0 ∧
      c5State.masterMap 0 = none ∧
      c5Env.config.newWindowSpawnLocation = SpawnLoc.beforeFocused ∧
      c5State.currentWindow = some 1 ∧ (0 : Nat) ∉ c5State.store ∧
      (1 : Nat) ≠ 0 ∧ c5State.store = [] ++ 1 :: [] ∧ (1 : Nat) ∉ ([] : List Nat) ∧
      (manage c5Env c5State 0).2 = [] ∧
      (manage c5Env c5State 0).1.store = manageInsertStore c5Env c5State 0 ∧
      manageInsertStore c5Env c5State 0 = [] ++ 0 :: 1 :: [] :=
  ⟨rfl, rfl, rfl, rfl, rfl, by decide, by decide, rfl, by decide,
    (manage_policy_and_insert c5Env c5State 0 0).2.1 rfl,
    (manage_policy_and_insert c5Env c5State 0 0).2.2.1 rfl rfl rfl,
    (manage_policy_and_insert c5Env c5State 0 0).2.2.2.2.2.1 1 [] [] rfl rfl
      (by decide) (by decide) rfl (by decide)⟩

theorem unmanage_no_master (env : Env) (st1 : EngineState) (w s : Nat)
    (n : Int)
    (hsurf1 : (st1.heap w).surface = some s)
    (hmm1 : st1.masterMap s = some n)
    (hstack1 : isInMasterStack st1.heap st1.store w n = false) :
    (unmanage env st1 w).1.store = wsRemove st1.store w ∧
      (unmanage env st1 w).1.masterMap s = some n := by
  have hdec : unmanageDecrement st1 w = st1 := by
    unfold unmanageDecrement
    simp only [hsurf1, hmm1]
    rw [if_neg (by simp [hstack1])]
  unfold unmanage
  simp only [hsurf1, hdec]
  have hfr := arrange_frame env (some s)
    { st1 with store := wsRemove st1.store w }
  refine ⟨hfr.1, ?_⟩
  rw [hfr.2.1]
  exact hmm1

/-- C4: manage-then-unmanage round trip for a window classified into the
stack.  For a fresh, non-ignored window on a surface whose active layout is
stack-capable (`numMasterTiles = n`), if the window lands outside the
master stack after insertion and classification, then
`unmanage(manage(window))` leaves the Window Store's contents and that
layout's `numMasterTiles` exactly as before `manage` was called. -/
theorem manage_unmanage_roundtrip (env : Env) (st : EngineState) (w s : Nat)
    (n : Int)
    (hig : (st.heap w).shouldIgnore = false)
    (hw : w ∉ st.store)
    (hs : (st.heap w).surface = some s)
    (hn : st.masterMap s = some n)
    (hstack : isInMasterStack (manageClassified env st w s)
      (manageInsertStore env st w) w n = false) :
    (unmanage env (manage env st w).1 w).1.store = st.store ∧
      (unmanage env (manage env st w).1 w).1.masterMap s = some n := by
  have hm : manage env st w =
      ({ st with heap := manageClassified env st w s, store := manageInsertStore env st w }, []) := by
    unfold manage
    rw [if_neg (by simp [hig])]
    simp only [hs, hn]
    rw [if_neg (by simp [hstack])]
  have h1 : ((manage env st w).1.heap w).surface = some s := by
    rw [hm]
    show ((manageClassified env st w s) w).surface = some s
    unfold manageClassified
    rw [classify_surface]
    show ((manageHeap0 st w) w).surface = some s
    unfold manageHeap0 updateHeap
    simp [hs]
  have h2 : (manage env st w).1.masterMap s = some n := by
    rw [hm]; exact hn
  have h3 : isInMasterStack (manage env st w).1.heap
      (manage env st w).1.store w n = false := by
    rw [hm]; exact hstack
  have h4 : wsRemove (manage env st w).1.store w = st.store := by
    rw [hm]
    exact wsRemove_manageInsert env st w hw
  obtain ⟨ha, hb⟩ := unmanage_no_master env (manage env st w).1 w s n h1 h2 h3
  exact ⟨ha.trans h4, hb⟩

def c4Heap : Nat → WinData :=
  fun i =>
    if i = 0 then ⟨0, WState.tiled, false, false, false, some 0, ⟨0, 0, 100, 100⟩, 0⟩
    else ⟨0, WState.tiled, false, false, false, some 0, ⟨0, 100, 100, 100⟩, 1⟩

def c4Env : Env :=
  { config :=
      { maximizeSoleTile := false, limitTileWidth := 0,
        monocleMaximize := false, newWindowSpawnLocation := SpawnLoc.atEnd,
        moveBetweenSurfaces := false, screenGapLeft := 0, screenGapRight := 0,
        screenGapTop := 0, screenGapBottom := 0 },
    screens := [0],
    workingArea := fun _ => ⟨0, 0, 200, 200⟩,
    layoutOf := fun _ =>
      { isMonocle := false,
        apply := fun ws area => ws.map (fun _ => area) } }

def c4State : EngineState :=
  { heap := c4Heap, store := [1], masterMap := fun _ => some 1,
    currentWindow := none }

/-- Witness for C4: window `0` managed at the end of a one-window master
stack (`numMasterTiles = 1`) is classified into the stack; the round trip
restores the store `[1]` and keeps `numMasterTiles = 1`. -/
theorem manage_unmanage_roundtrip_witness :
    (c4State.heap 0).shouldIgnore = false ∧ (0 : Nat) ∉ c4State.store ∧
      (c4State.heap 0).surface = some 0 ∧ c4State.masterMap 0 = some 1 ∧
      isInMasterStack (manageClassified c4Env c4State 0 0)
        (manageInsertStore c4Env c4State 0) 0 1 = false ∧
      ((unmanage c4Env (manage c4Env c4State 0).1 0).1.store =
          c4State.store ∧
        (unmanage c4Env (manage c4Env c4State 0).1 0).1.masterMap 0 =
          some 1) :=
  ⟨rfl, by decide, rfl, rfl, by decide,
    manage_unmanage_roundtrip c4Env c4State 0 0 1 rfl (by decide) rfl rfl
      (by decide)⟩

/-! ### Phase ordering of one arrangement (C7) -/

/-- The phase an event belongs to: surface header `0`, classification `1`,
layout application `2` (both the sole-maximize assignment and
`layout.apply`), width clamp `3`, commit `4`. -/
def evClass : Ev → Nat
  | Ev.arrangeSurf _ => 0
  | Ev.classifyWin _ => 1
  | Ev.soleMax _ => 2
  | Ev.applyLayout => 2
  | Ev.clampWin _ => 3
  | Ev.commitWin _ => 4
  | Ev.notify => 0

/-- Nondecreasing phase order between two events. -/
def evLE (a b : Ev) : Prop := evClass a ≤ evClass b

def isClassifyEv : Ev → Bool
  | Ev.classifyWin _ => true
  | _ => false

def isApplyEv : Ev → Bool
  | Ev.applyLayout => true
  | Ev.soleMax _ => true
  | _ => false

def isClampEv : Ev → Bool
  | Ev.clampWin _ => true
  | _ => false

def isCommitEv : Ev → Bool
  | Ev.commitWin _ => true
  | _ => false

theorem pairwise_le_of_get? :
    ∀ {l : List Ev}, l.Pairwise evLE → ∀ {i j : Nat} {a b : Ev},
      l.get? i = some a → l.get? j = some b → i < j → evLE a b := by
  intro l
  induction l with
  | nil =>
    intro _ i j a b ha _ _
    simp at ha
  | cons x xs ih =>
    intro hp i j a b ha hb hij
    obtain ⟨hx, hxs⟩ := List.pairwise_cons.mp hp
    match i, j with
    | 0, 0 => omega
    | 0, k + 1 =>
      simp only [List.get?] at ha hb
      injection ha with ha
      subst ha
      exact hx b (List.get?_mem hb)
    | m + 1, 0 => omega
    | m + 1, k + 1 =>
      simp only [List.get?] at ha hb
      exact ih hxs ha hb (by omega)

theorem pairwise_le_const {l : List Ev} {k : Nat}
    (h : ∀ e ∈ l, evClass e = k) : l.Pairwise evLE := by
  induction l with
  | nil => exact List.Pairwise.nil
  | cons x xs ih =>
    refine List.Pairwise.cons ?_ (ih ?_)
    · intro b hb
      unfold evLE
      rw [h x (List.mem_cons_self x xs), h b (List.mem_cons_of_mem x hb)]
    · intro e he
      exact h e (List.mem_cons_of_mem x he)

theorem evClass_map_classify {l : List Nat} {e : Ev}
    (h : e ∈ l.map Ev.classifyWin) : evClass e = 1 := by
  obtain ⟨w, _, rfl⟩ := List.mem_map.mp h
  rfl

theorem evClass_map_clamp {l : List Nat} {e : Ev}
    (h : e ∈ l.map Ev.clampWin) : evClass e = 3 := by
  obtain ⟨w, _, rfl⟩ := List.mem_map.mp h
  rfl

theorem evClass_map_commit {l : List Nat} {e : Ev}
    (h : e ∈ l.map Ev.commitWin) : evClass e = 4 := by
  obtain ⟨w, _, rfl⟩ := List.mem_map.mp h
  rfl

theorem evClass_clampWindows {cfg : Config} {lay : LayoutKind} {wa : Rect}
    {h : Nat → WinData} {ts : List Nat} {e : Ev}
    (he : e ∈ (clampWindows cfg lay wa h ts).2) : evClass e = 3 := by
  unfold clampWindows at he
  split at he
  · exact evClass_map_clamp he
  · simp at he

theorem evClass_soleOrApply {env : Env} {h1 : Nat → WinData} {ts : List Nat}
    {surf : Nat} {e : Ev} (he : e ∈ (soleOrApply env h1 ts surf).2) :
    evClass e = 2 := by
  unfold soleOrApply at he
  split at he
  · split at he
    · simp only [List.mem_singleton] at he
      subst he
      rfl
    · simp at he
  · split at he
    · simp only [List.mem_singleton] at he
      subst he
      rfl
    · simp at he

theorem arrangeScreen_trace (env : Env) (st : EngineState) (s : Nat) :
    (arrangeScreen env st s).2.Pairwise evLE ∧
      ∀ e ∈ (arrangeScreen env st s).2, 1 ≤ evClass e ∧ evClass e ≤ 3 := by
  show ((visibleWindowsOn st.heap st.store s).map Ev.classifyWin ++
      (soleOrApply env (classify st.heap (visibleWindowsOn st.heap st.store s))
        (visibleTileableWindowsOn
          (classify st.heap (visibleWindowsOn st.heap st.store s)) st.store s)
        s).2 ++
      (clampWindows env.config (env.layoutOf s) (env.workingArea s)
        (soleOrApply env (classify st.heap (visibleWindowsOn st.heap st.store s))
          (visibleTileableWindowsOn
            (classify st.heap (visibleWindowsOn st.heap st.store s)) st.store
            s) s).1
        (visibleTileableWindowsOn
          (classify st.heap (visibleWindowsOn st.heap st.store s)) st.store
          s)).2).Pairwise evLE ∧ _
  constructor
  · refine List.pairwise_append.mpr ⟨List.pairwise_append.mpr
      ⟨pairwise_le_const (fun e he => evClass_map_classify he),
       pairwise_le_const (fun e he => evClass_soleOrApply he), ?_⟩,
      pairwise_le_const (fun e he => evClass_clampWindows he), ?_⟩
    · intro a ha b hb
      unfold evLE
      rw [evClass_map_classify ha, evClass_soleOrApply hb]
      omega
    · intro a ha b hb
      unfold evLE
      rw [evClass_clampWindows hb]
      rcases List.mem_append.mp ha with h | h
      · rw [evClass_map_classify h]; omega
      · rw [evClass_soleOrApply h]; omega
  · intro e he
    rcases List.mem_append.mp he with h | h
    · rcases List.mem_append.mp h with h | h
      · rw [evClass_map_classify h]; omega
      · rw [evClass_soleOrApply h]; omega
    · rw [evClass_clampWindows h]; omega

theorem arrangeOne_trace_sorted (env : Env) (st : EngineState) (s : Nat) :
    (arrangeOne env st s).2.Pairwise evLE := by
  obtain ⟨hsorted, hbounds⟩ := arrangeScreen_trace env st s
  show (Ev.arrangeSurf s :: ((arrangeScreen env st s).2 ++
    (commitArrangement (arrangeScreen env st s).1 s).2)).Pairwise evLE
  refine List.Pairwise.cons ?_ ?_
  · intro e _
    show evClass (Ev.arrangeSurf s) ≤ evClass e
    simp only [evClass]
    omega
  · refine List.pairwise_append.mpr ⟨hsorted, ?_, ?_⟩
    · exact pairwise_le_const (fun e he => evClass_map_commit he)
    · intro a ha b hb
      unfold evLE
      rw [evClass_map_commit hb]
      have := (hbounds a ha).2
      omega

theorem evClass_of_isClassify {e : Ev} (h : isClassifyEv e = true) :
    evClass e = 1 := by
  cases e <;> simp [isClassifyEv] at h ⊢ <;> rfl

theorem evClass_of_isApply {e : Ev} (h : isApplyEv e = true) :
    evClass e = 2 := by
  cases e <;> simp [isApplyEv] at h ⊢ <;> rfl

theorem evClass_of_isClamp {e : Ev} (h : isClampEv e = true) :
    evClass e = 3 := by
  cases e <;> simp [isClampEv] at h ⊢ <;> rfl

theorem evClass_of_isCommit {e : Ev} (h : isCommitEv e = true) :
    evClass e = 4 := by
  cases e <;> simp [isCommitEv] at h ⊢ <;> rfl

theorem trace_order_lt {t : List Ev} (hsorted : t.Pairwise evLE) {i j : Nat}
    {e1 e2 : Ev} (h1 : t.get? i = some e1) (h2 : t.get? j = some e2)
    (hc : evClass e1 < evClass e2) : i < j := by
  by_contra hij
  rcases Nat.lt_or_ge j i with hj | hj
  · have hle := pairwise_le_of_get? hsorted h2 h1 hj
    unfold evLE at hle
    omega
  · have hji : i = j := by omega
    subst hji
    rw [h1] at h2
    injection h2 with h2
    subst h2
    omega

/-- C7: within one arrangement of a surface, classification events all
precede the layout-application event, the layout application precedes
every width-clamp event, and every clamp precedes every commit: the four
phases occur in that order in the arrangement's trace. -/
theorem arrangement_phase_order (env : Env) (st : EngineState) (s : Nat)
    (i j : Nat) (e1 e2 : Ev)
    (h1 : (arrangeOne env st s).2.get? i = some e1)
    (h2 : (arrangeOne env st s).2.get? j = some e2) :
    (isClassifyEv e1 = true → isApplyEv e2 = true → i < j) ∧
      (isApplyEv e1 = true → isClampEv e2 = true → i < j) ∧
      (isClampEv e1 = true → isCommitEv e2 = true → i < j) := by
  have hsorted := arrangeOne_trace_sorted env st s
  refine ⟨?_, ?_, ?_⟩
  · intro ha hb
    refine trace_order_lt hsorted h1 h2 ?_
    rw [evClass_of_isClassify ha, evClass_of_isApply hb]
    omega
  · intro ha hb
    refine trace_order_lt hsorted h1 h2 ?_
    rw [evClass_of_isApply ha, evClass_of_isClamp hb]
    omega
  · intro ha hb
    refine trace_order_lt hsorted h1 h2 ?_
    rw [evClass_of_isClamp ha, evClass_of_isCommit hb]
    omega

def c7Heap : Nat → WinData :=
  fun _ => ⟨0, WState.undecided, false, false, false, some 0, ⟨0, 0, 10, 10⟩, 0⟩

def c7Env : Env :=
  { config :=
      { maximizeSoleTile := false, limitTileWidth := 1,
        monocleMaximize := false, newWindowSpawnLocation := SpawnLoc.atEnd,
        moveBetweenSurfaces := false, screenGapLeft := 0, screenGapRight := 0,
        screenGapTop := 0, screenGapBottom := 0 },
    screens := [0],
    workingArea := fun _ => ⟨0, 0, 300, 100⟩,
    layoutOf := fun _ =>
      { isMonocle := false,
        apply := fun ws _ => ws.map (fun _ => ⟨0, 0, 300, 100⟩) } }

def c7State : EngineState :=
  { heap := c7Heap, store := [0], masterMap := fun _ => none,
    currentWindow := none }

/-- Witness for C7: a concrete arrangement whose trace contains all four
phases, `[arrangeSurf 0, classifyWin 0, applyLayout, clampWin 0,
commitWin 0]`, with the three orderings instantiated. -/
theorem arrangement_phase_order_witness :
    (arrangeOne c7Env c7State 0).2.get? 1 = some (Ev.classifyWin 0) ∧
      (arrangeOne c7Env c7State 0).2.get? 2 = some Ev.applyLayout ∧
      (arrangeOne c7Env c7State 0).2.get? 3 = some (Ev.clampWin 0) ∧
      (arrangeOne c7Env c7State 0).2.get? 4 = some (Ev.commitWin 0) ∧
      (1 : Nat) < 2 ∧ (2 : Nat) < 3 ∧ (3 : Nat) < 4 :=
  ⟨by decide, by decide, by decide, by decide,
    (arrangement_phase_order c7Env c7State 0 1 2 (Ev.classifyWin 0)
      Ev.applyLayout (by decide) (by decide)).1 rfl rfl,
    (arrangement_phase_order c7Env c7State 0 2 3 Ev.applyLayout
      (Ev.clampWin 0) (by decide) (by decide)).2.1 rfl rfl,
    (arrangement_phase_order c7Env c7State 0 3 4 (Ev.clampWin 0)
      (Ev.commitWin 0) (by decide) (by decide)).2.2 rfl rfl⟩

/-! ### Facts about the corner folds and the recency pick (C6) -/

theorem foldl_min_le_init : ∀ (l : List Int) (a : Int), l.foldl min a ≤ a
  | [], a => le_refl a
  | x :: xs, a =>
    le_trans (foldl_min_le_init xs (min a x)) (min_le_left a x)

theorem foldl_min_le_mem :
    ∀ (l : List Int) (a : Int) {y : Int}, y ∈ l → l.foldl min a ≤ y
  | [], _, y, hy => absurd hy (List.not_mem_nil y)
  | x :: xs, a, y, hy => by
    rcases List.mem_cons.mp hy with h | h
    · subst h
      exact le_trans (foldl_min_le_init xs (min a y)) (min_le_right a y)
    · exact foldl_min_le_mem xs (min a x) h

theorem foldl_min_mem_or :
    ∀ (l : List Int) (a : Int), l.foldl min a = a ∨ l.foldl min a ∈ l
  | [], a => Or.inl rfl
  | x :: xs, a => by
    rcases foldl_min_mem_or xs (min a x) with h | h
    · rcases le_total a x with hax | hax
      · left
        rw [show (x :: xs).foldl min a = xs.foldl min (min a x) from rfl, h,
          min_eq_left hax]
      · right
        rw [show (x :: xs).foldl min a = xs.foldl min (min a x) from rfl, h,
          min_eq_right hax]
        exact List.mem_cons_self x xs
    · right
      exact List.mem_cons_of_mem x h

theorem foldMinSeed_le_mem {xs : List Int} {y : Int} (hy : y ∈ xs) :
    foldMinSeed xs ≤ y := by
  cases xs with
  | nil => cases hy
  | cons x rest =>
    rcases List.mem_cons.mp hy with h | h
    · subst h
      exact foldl_min_le_init rest y
    · exact foldl_min_le_mem rest x h

theorem foldMinSeed_mem {xs : List Int} (hne : xs ≠ []) :
    foldMinSeed xs ∈ xs := by
  cases xs with
  | nil => exact absurd rfl hne
  | cons x rest =>
    rcases foldl_min_mem_or rest x with h | h
    · rw [show foldMinSeed (x :: rest) = rest.foldl min x from rfl, h]
      exact List.mem_cons_self x rest
    · exact List.mem_cons_of_mem x
        (by rwa [show foldMinSeed (x :: rest) = rest.foldl min x from rfl])

theorem foldl_max_ge_init :
    ∀ (l : List Int) (a : Int), a ≤ l.foldl (fun acc v => max v acc) a
  | [], a => le_refl a
  | x :: xs, a =>
    le_trans (le_max_right x a) (foldl_max_ge_init xs (max x a))

theorem foldl_max_ge_mem :
    ∀ (l : List Int) (a : Int) {y : Int}, y ∈ l →
      y ≤ l.foldl (fun acc v => max v acc) a
  | [], _, y, hy => absurd hy (List.not_mem_nil y)
  | x :: xs, a, y, hy => by
    rcases List.mem_cons.mp hy with h | h
    · subst h
      exact le_trans (le_max_left y a) (foldl_max_ge_init xs (max y a))
    · exact foldl_max_ge_mem xs (max x a) h

theorem foldl_max_mem_or :
    ∀ (l : List Int) (a : Int),
      l.foldl (fun acc v => max v acc) a = a ∨
        l.foldl (fun acc v => max v acc) a ∈ l
  | [], a => Or.inl rfl
  | x :: xs, a => by
    rcases foldl_max_mem_or xs (max x a) with h | h
    · rcases le_total x a with hax | hax
      · left
        rw [show (x :: xs).foldl (fun acc v => max v acc) a =
          xs.foldl (fun acc v => max v acc) (max x a) from rfl, h,
          max_eq_right hax]
      · right
        rw [show (x :: xs).foldl (fun acc v => max v acc) a =
          xs.foldl (fun acc v => max v acc) (max x a) from rfl, h,
          max_eq_left hax]
        exact List.mem_cons_self x xs
    · right
      exact List.mem_cons_of_mem x h

theorem mostRecent_go (h : Nat → WinData) :
    ∀ (l : List Nat) (j : Nat), ∃ w,
      l.foldl
        (fun acc i =>
          match acc with
          | none => some i
          | some k => if (h k).timestamp < (h i).timestamp then some i
                      else some k) (some j) = some w ∧
      (w = j ∨ w ∈ l) ∧ (h j).timestamp ≤ (h w).timestamp ∧
      ∀ v ∈ l, (h v).timestamp ≤ (h w).timestamp
  | [], j => ⟨j, rfl, Or.inl rfl, le_refl _, fun v hv => absurd hv (List.not_mem_nil v)⟩
  | i :: rest, j => by
    by_cases hij : (h j).timestamp < (h i).timestamp
    · obtain ⟨w, heq, hmem, hts, hall⟩ := mostRecent_go h rest i
      refine ⟨w, ?_, ?_, ?_, ?_⟩
      · show rest.foldl _ (if (h j).timestamp < (h i).timestamp then some i
          else some j) = some w
        rw [if_pos hij]
        exact heq
      · rcases hmem with hmem | hmem
        · exact Or.inr (hmem ▸ List.mem_cons_self i rest)
        · exact Or.inr (List.mem_cons_of_mem i hmem)
      · exact le_trans (le_of_lt hij) hts
      · intro v hv
        rcases List.mem_cons.mp hv with hv | hv
        · exact hv ▸ hts
        · exact hall v hv
    · obtain ⟨w, heq, hmem, hts, hall⟩ := mostRecent_go h rest j
      refine ⟨w, ?_, ?_, ?_, ?_⟩
      · show rest.foldl _ (if (h j).timestamp < (h i).timestamp then some i
          else some j) = some w
        rw [if_neg hij]
        exact heq
      · rcases hmem with hmem | hmem
        · exact Or.inl hmem
        · exact Or.inr (List.mem_cons_of_mem i hmem)
      · exact hts
      · intro v hv
        rcases List.mem_cons.mp hv with hv | hv
        · subst hv
          exact le_trans (le_of_not_lt hij) hts
        · exact hall v hv

theorem mostRecent_spec (h : Nat → WinData) {l : List Nat} {w : Nat}
    (hm : mostRecent h l = some w) :
    w ∈ l ∧ ∀ v ∈ l, (h v).timestamp ≤ (h w).timestamp := by
  cases l with
  | nil => cases hm
  | cons x xs =>
    obtain ⟨w', heq, hmem, hts, hall⟩ := mostRecent_go h xs x
    have heq2 : mostRecent h (x :: xs) = some w' := heq
    rw [heq2] at hm
    injection hm with hm
    subst hm
    constructor
    · rcases hmem with hmem | hmem
      · exact hmem ▸ List.mem_cons_self x xs
      · exact List.mem_cons_of_mem x hmem
    · intro v hv
      rcases List.mem_cons.mp hv with hv | hv
      · exact hv ▸ hts
      · exact hall v hv

theorem mostRecent_isSome (h : Nat → WinData) {l : List Nat} (hne : l ≠ []) :
    ∃ w, mostRecent h l = some w := by
  cases l with
  | nil => exact absurd rfl hne
  | cons x xs =>
    obtain ⟨w, heq, _, _, _⟩ := mostRecent_go h xs x
    exact ⟨w, heq⟩

/-- The band of closest windows computed inside `getNeighborByDirection`
(engine/index.ts:1209-1217): the candidates filtered by the 5-pixel
tolerance around the closest corner. -/
def nbBand (h : Nat → WinData) (ws : List Nat) (basis : Rect) (dir : Dir) :
    List Nat :=
  getClosestRelativeWindow h (neighborCandidates h ws basis dir) dir
    (closestRelativWindowCorner
      ((neighborCandidates h ws basis dir).map (fun i => (h i).geometry)) dir)

theorem getNeighborByDirection_eq (h : Nat → WinData) (ws : List Nat)
    (basis : Rect) (dir : Dir) :
    getNeighborByDirection h ws basis dir =
      if (neighborCandidates h ws basis dir).length == 0 then none
      else mostRecent h (nbBand h ws basis dir) := rfl

theorem nbBand_subset {h : Nat → WinData} {ws : List Nat} {basis : Rect}
    {dir : Dir} {v : Nat} (hv : v ∈ nbBand h ws basis dir) :
    v ∈ neighborCandidates h ws basis dir :=
  (List.mem_filter.mp hv).1

/-- Three full-width tiles stacked vertically at `y = 0, 100, 200`, each
100 tall, all tiled and visible on surface 0. -/
def c6Heap : Nat → WinData := fun i =>
  ⟨0, WState.tiled, false, false, false, some 0,
    ⟨0, 100 * (i : Int), 300, 100⟩, (i : Int)⟩

def c6Env : Env :=
  { config :=
      { maximizeSoleTile := false, limitTileWidth := 0,
        monocleMaximize := false, newWindowSpawnLocation := SpawnLoc.atEnd,
        moveBetweenSurfaces := false, screenGapLeft := 0, screenGapRight := 0,
        screenGapTop := 0, screenGapBottom := 0 },
    screens := [0],
    workingArea := fun _ => ⟨0, 0, 300, 300⟩,
    layoutOf := fun _ =>
      { isMonocle := false, apply := fun ws r => ws.map (fun _ => r) } }

def c6State : EngineState :=
  { heap := c6Heap, store := [0, 1, 2], masterMap := fun _ => none,
    currentWindow := some 0 }

def c6State2 : EngineState :=
  { heap := c6Heap, store := [0, 1, 2], masterMap := fun _ => none,
    currentWindow := some 2 }

/-- A single tiled window far above the basis: its bottom edge sits at
`y = -200`. -/
def c6xHeap : Nat → WinData := fun _ =>
  ⟨0, WState.tiled, false, false, false, some 0, ⟨0, -300, 100, 100⟩, 0⟩

/-- C6 counterexample: for the `up` direction the reduce computing the
closest corner is seeded with `0` (engine/index.ts:1171), not with minus
infinity.  With one candidate whose bottom edge lies at `y = -200`, the
candidate filter finds it, the spec's closest edge is `-200` (the
candidate's own edge, distance 0), yet the search returns no neighbor:
the tolerance band `maxY > 0 - 5` around the seeded corner is empty. -/
theorem neighbor_search_up_counterexample :
    neighborCandidates c6xHeap [0] ⟨0, 0, 100, 100⟩ Dir.up = [0] ∧
    (c6xHeap 0).geometry.maxY = -200 ∧
    getNeighborByDirection c6xHeap [0] ⟨0, 0, 100, 100⟩ Dir.up = none := by
  refine ⟨?_, ?_, ?_⟩ <;> decide

theorem candChar_down (h : Nat → WinData) (ws : List Nat) (basis : Rect) (i : Nat) :
    i ∈ neighborCandidates h ws basis Dir.down ↔
      i ∈ ws ∧ basis.y < (h i).geometry.y ∧
        (h i).geometry.x < basis.maxX ∧ basis.x < (h i).geometry.maxX := by
  simp [neighborCandidates, overlapB, List.mem_filter, and_assoc]

theorem candChar_up (h : Nat → WinData) (ws : List Nat) (basis : Rect) (i : Nat) :
    i ∈ neighborCandidates h ws basis Dir.up ↔
      i ∈ ws ∧ (h i).geometry.y < basis.y ∧
        (h i).geometry.x < basis.maxX ∧ basis.x < (h i).geometry.maxX := by
  simp [neighborCandidates, overlapB, List.mem_filter, and_assoc]

theorem candChar_right (h : Nat → WinData) (ws : List Nat) (basis : Rect) (i : Nat) :
    i ∈ neighborCandidates h ws basis Dir.right ↔
      i ∈ ws ∧ basis.x < (h i).geometry.x ∧
        (h i).geometry.y < basis.maxY ∧ basis.y < (h i).geometry.maxY := by
  simp [neighborCandidates, overlapB, List.mem_filter, and_assoc]

theorem candChar_left (h : Nat → WinData) (ws : List Nat) (basis : Rect) (i : Nat) :
    i ∈ neighborCandidates h ws basis Dir.left ↔
      i ∈ ws ∧ (h i).geometry.x < basis.x ∧
        (h i).geometry.y < basis.maxY ∧ basis.y < (h i).geometry.maxY := by
  simp [neighborCandidates, overlapB, List.mem_filter, and_assoc]

theorem neighbor_sound (h : Nat → WinData) (ws : List Nat) (basis : Rect)
    (dir : Dir) (w : Nat)
    (hres : getNeighborByDirection h ws basis dir = some w) :
    w ∈ nbBand h ws basis dir ∧ w ∈ neighborCandidates h ws basis dir ∧
      ∀ v ∈ nbBand h ws basis dir, (h v).timestamp ≤ (h w).timestamp := by
  rw [getNeighborByDirection_eq] at hres
  split at hres
  · cases hres
  · obtain ⟨hmem, hmax⟩ := mostRecent_spec h hres
    exact ⟨hmem, nbBand_subset hmem, hmax⟩

theorem neighbor_complete (h : Nat → WinData) (ws : List Nat) (basis : Rect)
    (dir : Dir) (hc : neighborCandidates h ws basis dir ≠ [])
    (hb : nbBand h ws basis dir ≠ []) :
    ∃ w, getNeighborByDirection h ws basis dir = some w := by
  rw [getNeighborByDirection_eq, if_neg]
  · exact mostRecent_isSome h hb
  · simp [List.length_eq_zero, hc]

theorem neighbor_down_exists (h : Nat → WinData) (ws : List Nat) (basis : Rect)
    (hc : neighborCandidates h ws basis Dir.down ≠ []) :
    ∃ w, getNeighborByDirection h ws basis Dir.down = some w ∧
      ∀ v ∈ neighborCandidates h ws basis Dir.down,
        (h w).geometry.y < (h v).geometry.y + 5 := by
  have hE : (((neighborCandidates h ws basis Dir.down).map
      (fun i => (h i).geometry)).map (fun g => g.y)) ≠ [] := by
    simpa [List.map_eq_nil] using hc
  have hmemc := foldMinSeed_mem hE
  rw [List.mem_map] at hmemc
  obtain ⟨g, hg, hgy⟩ := hmemc
  rw [List.mem_map] at hg
  obtain ⟨v0, hv0, hv0g⟩ := hg
  have hv0band : v0 ∈ nbBand h ws basis Dir.down := by
    refine List.mem_filter.mpr ⟨hv0, ?_⟩
    show decide ((h v0).geometry.y <
      closestRelativWindowCorner
        ((neighborCandidates h ws basis Dir.down).map (fun i => (h i).geometry))
        Dir.down + 5) = true
    have hcorner : closestRelativWindowCorner
        ((neighborCandidates h ws basis Dir.down).map (fun i => (h i).geometry))
        Dir.down =
        foldMinSeed (((neighborCandidates h ws basis Dir.down).map
          (fun i => (h i).geometry)).map (fun g => g.y)) := rfl
    rw [hcorner]
    simp only [decide_eq_true_eq]
    rw [← hgy, ← hv0g]
    omega
  obtain ⟨w, hw⟩ := neighbor_complete h ws basis Dir.down hc
    (List.ne_nil_of_mem hv0band)
  obtain ⟨hwband, hwc, _⟩ := neighbor_sound h ws basis Dir.down w hw
  refine ⟨w, hw, ?_⟩
  intro v hv
  have hwy : (h w).geometry.y <
      foldMinSeed (((neighborCandidates h ws basis Dir.down).map
        (fun i => (h i).geometry)).map (fun g => g.y)) + 5 := by
    have h2 := (List.mem_filter.mp hwband).2
    exact of_decide_eq_true h2
  have hvE : (h v).geometry.y ∈ (((neighborCandidates h ws basis Dir.down).map
      (fun i => (h i).geometry)).map (fun g => g.y)) := by
    rw [List.mem_map]
    exact ⟨(h v).geometry, List.mem_map.mpr ⟨v, hv, rfl⟩, rfl⟩
  have h3 := foldMinSeed_le_mem hvE
  omega

theorem neighbor_right_exists (h : Nat → WinData) (ws : List Nat) (basis : Rect)
    (hc : neighborCandidates h ws basis Dir.right ≠ []) :
    ∃ w, getNeighborByDirection h ws basis Dir.right = some w ∧
      ∀ v ∈ neighborCandidates h ws basis Dir.right,
        (h w).geometry.x < (h v).geometry.x + 5 := by
  have hE : (((neighborCandidates h ws basis Dir.right).map
      (fun i => (h i).geometry)).map (fun g => g.x)) ≠ [] := by
    simpa [List.map_eq_nil] using hc
  have hmemc := foldMinSeed_mem hE
  rw [List.mem_map] at hmemc
  obtain ⟨g, hg, hgy⟩ := hmemc
  rw [List.mem_map] at hg
  obtain ⟨v0, hv0, hv0g⟩ := hg
  have hv0band : v0 ∈ nbBand h ws basis Dir.right := by
    refine List.mem_filter.mpr ⟨hv0, ?_⟩
    show decide ((h v0).geometry.x <
      closestRelativWindowCorner
        ((neighborCandidates h ws basis Dir.right).map (fun i => (h i).geometry))
        Dir.right + 5) = true
    have hcorner : closestRelativWindowCorner
        ((neighborCandidates h ws basis Dir.right).map (fun i => (h i).geometry))
        Dir.right =
        foldMinSeed (((neighborCandidates h ws basis Dir.right).map
          (fun i => (h i).geometry)).map (fun g => g.x)) := rfl
    rw [hcorner]
    simp only [decide_eq_true_eq]
    rw [← hgy, ← hv0g]
    omega
  obtain ⟨w, hw⟩ := neighbor_complete h ws basis Dir.right hc
    (List.ne_nil_of_mem hv0band)
  obtain ⟨hwband, hwc, _⟩ := neighbor_sound h ws basis Dir.right w hw
  refine ⟨w, hw, ?_⟩
  intro v hv
  have hwy : (h w).geometry.x <
      foldMinSeed (((neighborCandidates h ws basis Dir.right).map
        (fun i => (h i).geometry)).map (fun g => g.x)) + 5 := by
    have h2 := (List.mem_filter.mp hwband).2
    exact of_decide_eq_true h2
  have hvE : (h v).geometry.x ∈ (((neighborCandidates h ws basis Dir.right).map
      (fun i => (h i).geometry)).map (fun g => g.x)) := by
    rw [List.mem_map]
    exact ⟨(h v).geometry, List.mem_map.mpr ⟨v, hv, rfl⟩, rfl⟩
  have h3 := foldMinSeed_le_mem hvE
  omega

theorem neighbor_up_none (h : Nat → WinData) (ws : List Nat) (basis : Rect)
    (hall : ∀ v ∈ neighborCandidates h ws basis Dir.up,
      (h v).geometry.maxY ≤ -5) :
    getNeighborByDirection h ws basis Dir.up = none := by
  by_cases hc : neighborCandidates h ws basis Dir.up = []
  · rw [getNeighborByDirection_eq, if_pos]
    simp [hc]
  · have hband : nbBand h ws basis Dir.up = [] := by
      apply List.filter_eq_nil.mpr
      intro v hv
      show ¬ (decide (closestRelativWindowCorner
        ((neighborCandidates h ws basis Dir.up).map (fun i => (h i).geometry))
        Dir.up - 5 < (h v).geometry.maxY) = true)
      simp only [decide_eq_true_eq, not_lt]
      have hcorner0 : (0 : Int) ≤ closestRelativWindowCorner
          ((neighborCandidates h ws basis Dir.up).map (fun i => (h i).geometry))
          Dir.up :=
        foldl_max_ge_init _ 0
      have := hall v hv
      omega
    rw [getNeighborByDirection_eq, if_neg, hband]
    · rfl
    · simp [List.length_eq_zero, hc]

theorem neighbor_left_none (h : Nat → WinData) (ws : List Nat) (basis : Rect)
    (hall : ∀ v ∈ neighborCandidates h ws basis Dir.left,
      (h v).geometry.maxX ≤ -5) :
    getNeighborByDirection h ws basis Dir.left = none := by
  by_cases hc : neighborCandidates h ws basis Dir.left = []
  · rw [getNeighborByDirection_eq, if_pos]
    simp [hc]
  · have hband : nbBand h ws basis Dir.left = [] := by
      apply List.filter_eq_nil.mpr
      intro v hv
      show ¬ (decide (closestRelativWindowCorner
        ((neighborCandidates h ws basis Dir.left).map (fun i => (h i).geometry))
        Dir.left - 5 < (h v).geometry.maxX) = true)
      simp only [decide_eq_true_eq, not_lt]
      have hcorner0 : (0 : Int) ≤ closestRelativWindowCorner
          ((neighborCandidates h ws basis Dir.left).map (fun i => (h i).geometry))
          Dir.left :=
        foldl_max_ge_init _ 0
      have := hall v hv
      omega
    rw [getNeighborByDirection_eq, if_neg, hband]
    · rfl
    · simp [List.length_eq_zero, hc]

/-- **C6** (amended).  The directional neighbor search first keeps only
the windows strictly past the basis origin on the search axis that
overlap the basis on the perpendicular axis (first conjunct, all four
directions).  Whenever it returns a window, that window is a candidate,
lies in the 5-pixel tolerance band around the computed closest corner,
and carries the greatest last-focused timestamp within that band (second
conjunct).  For `down` and `right` the computed corner is the true
closest candidate edge, so a nonempty candidate set always yields a
neighbor whose near edge is within 5 pixels of every candidate's near
edge, in particular of the closest one (third and fourth conjuncts).
For `up` and `left` the corner reduce is seeded with `0` instead of
minus infinity, so whenever every candidate's near edge lies at or below
`-5` the search returns no neighbor even though candidates exist (fifth
and sixth conjuncts, the deviation from the spec).  The concrete
scenario holds: with three full-width tiles stacked at `y = 0, 100, 200`
each 100 tall, `focusDir` down from the top tile selects the middle tile
and from the bottom tile leaves the focused window unchanged (last two
conjuncts). -/
theorem neighbor_search_band_recency :
    (∀ (h : Nat → WinData) (ws : List Nat) (basis : Rect) (i : Nat),
        (i ∈ neighborCandidates h ws basis Dir.down ↔
          i ∈ ws ∧ basis.y < (h i).geometry.y ∧
            (h i).geometry.x < basis.maxX ∧ basis.x < (h i).geometry.maxX) ∧
        (i ∈ neighborCandidates h ws basis Dir.up ↔
          i ∈ ws ∧ (h i).geometry.y < basis.y ∧
            (h i).geometry.x < basis.maxX ∧ basis.x < (h i).geometry.maxX) ∧
        (i ∈ neighborCandidates h ws basis Dir.right ↔
          i ∈ ws ∧ basis.x < (h i).geometry.x ∧
            (h i).geometry.y < basis.maxY ∧ basis.y < (h i).geometry.maxY) ∧
        (i ∈ neighborCandidates h ws basis Dir.left ↔
          i ∈ ws ∧ (h i).geometry.x < basis.x ∧
            (h i).geometry.y < basis.maxY ∧ basis.y < (h i).geometry.maxY)) ∧
    (∀ (h : Nat → WinData) (ws : List Nat) (basis : Rect) (dir : Dir) (w : Nat),
        getNeighborByDirection h ws basis dir = some w →
          w ∈ nbBand h ws basis dir ∧ w ∈ neighborCandidates h ws basis dir ∧
            ∀ v ∈ nbBand h ws basis dir, (h v).timestamp ≤ (h w).timestamp) ∧
    (∀ (h : Nat → WinData) (ws : List Nat) (basis : Rect),
        neighborCandidates h ws basis Dir.down ≠ [] →
          ∃ w, getNeighborByDirection h ws basis Dir.down = some w ∧
            ∀ v ∈ neighborCandidates h ws basis Dir.down,
              (h w).geometry.y < (h v).geometry.y + 5) ∧
    (∀ (h : Nat → WinData) (ws : List Nat) (basis : Rect),
        neighborCandidates h ws basis Dir.right ≠ [] →
          ∃ w, getNeighborByDirection h ws basis Dir.right = some w ∧
            ∀ v ∈ neighborCandidates h ws basis Dir.right,
              (h w).geometry.x < (h v).geometry.x + 5) ∧
    (∀ (h : Nat → WinData) (ws : List Nat) (basis : Rect),
        (∀ v ∈ neighborCandidates h ws basis Dir.up,
          (h v).geometry.maxY ≤ -5) →
        getNeighborByDirection h ws basis Dir.up = none) ∧
    (∀ (h : Nat → WinData) (ws : List Nat) (basis : Rect),
        (∀ v ∈ neighborCandidates h ws basis Dir.left,
          (h v).geometry.maxX ≤ -5) →
        getNeighborByDirection h ws basis Dir.left = none) ∧
    (focusDir c6Env c6State Dir.down 0).currentWindow = some 1 ∧
    (focusDir c6Env c6State2 Dir.down 0).currentWindow = some 2 :=
  ⟨fun h ws basis i =>
      ⟨candChar_down h ws basis i, candChar_up h ws basis i,
        candChar_right h ws basis i, candChar_left h ws basis i⟩,
    neighbor_sound, neighbor_down_exists, neighbor_right_exists,
    neighbor_up_none, neighbor_left_none, by decide, by decide⟩

/-- Witness for C6: on the concrete three-tile stack the candidate set
below the top tile is nonempty and the amended theorem produces a
neighbor within 5 pixels of every candidate's top edge. -/
theorem neighbor_search_band_recency_witness :
    neighborCandidates c6Heap [0, 1, 2] ⟨0, 0, 300, 100⟩ Dir.down ≠ [] ∧
      ∃ w, getNeighborByDirection c6Heap [0, 1, 2] ⟨0, 0, 300, 100⟩ Dir.down
          = some w ∧
        ∀ v ∈ neighborCandidates c6Heap [0, 1, 2] ⟨0, 0, 300, 100⟩ Dir.down,
          (c6Heap w).geometry.y < (c6Heap v).geometry.y + 5 :=
  ⟨by decide,
    neighbor_search_band_recency.2.2.1 c6Heap [0, 1, 2] ⟨0, 0, 300, 100⟩
      (by decide)⟩

/-!
### Driver-level surface membership and `moveWindowToSurface`
(driver/window.ts:263-316 and 583-593, engine/index.ts:464-477 and
1472-1486)

`EngineImpl.arrangeScreen` (engine/index.ts:405-458) reads and writes only
window state and geometry, never a window's surface, screen or desktop;
the surface-relevant effect of arranging one surface is therefore exactly
the commit loop of `commitArrangement` (engine/index.ts:470-475), which
assigns `win.surface = surface` to every window of `allWindowsOn`.  The
definitions below embed that loop over the driver-level window attributes
with the full membership predicate `DriverWindowImpl.on`.
-/

/-- Modelled from the spec (section 3, `DriverSurface`): a surface is a
(screen, activity, virtual-desktop) tuple together with the list of groups
currently displayed on it (`driver/surface.ts` is not in the provided
sources; only the attributes read by the embedded code appear). -/
structure DSurf where
  screen : Int
  activity : Nat
  desktop : Int
  groups : List Nat
deriving DecidableEq

/-- The driver-level attributes of one window read and written by
`DriverWindowImpl` (driver/window.ts): the group tag (`undefined` as
`none`), the host client's desktop (`client.desktop`, `-1` = all
desktops) and activities (empty = all), and the cached screen and desktop
(the source's private `_screen` and `_desktop`, initialised from the
client and reassigned by the `surface` setter).  The `screen` getter
(driver/window.ts:209-211) returns the cached screen; the `desktop`
getter (driver/window.ts:213-215) returns `client.desktop`. -/
structure DWin where
  group : Option Nat
  clientDesktop : Int
  activities : List Nat
  screen : Int
  desktop : Int
deriving DecidableEq

/-- `DriverWindowImpl.on` (driver/window.ts:583-593): the window is on the
surface when its group is defined and displayed there, or when its client
desktop matches the surface's (or is `-1`), its activity list admits the
surface's activity (empty = all), and its screen equals the surface's. -/
def dOn (d : DWin) (surf : DSurf) : Bool :=
  (match d.group with
   | some g => surf.groups.contains g
   | none => false) ||
  ((d.clientDesktop == surf.desktop || d.clientDesktop == -1) &&
    (d.activities.isEmpty || d.activities.contains surf.activity) &&
    d.screen == surf.screen)

/-- The `surface` setter (driver/window.ts:292-316): `null` is ignored;
otherwise only the cached screen and desktop are assigned
(`this._screen = surf.screen; this._desktop = surf.desktop`; the activity
and group assignments are commented out in the source). -/
def dSetSurface (d : DWin) (surf : Option DSurf) : DWin :=
  match surf with
  | none => d
  | some s => { d with screen := s.screen, desktop := s.desktop }

/-- The environment of the driver-level embedding: the current activity,
and the groups displayed on each (screen, activity, desktop) triple.  The
latter is modelled from the spec (`DriverSurfaceImpl`'s constructor in
driver/surface.ts is not in the provided sources): a surface's `groups`
list comes from the group-to-surface mapping. -/
structure DEnv where
  currentActivity : Nat
  groupsOn : Int → Nat → Int → List Nat

/-- The activity chosen by the `surface` getter (driver/window.ts:264-274):
the current activity when the client's activity list is empty or contains
it, else the client's first activity. -/
def dActivityOf (env : DEnv) (d : DWin) : Nat :=
  if d.activities.isEmpty then env.currentActivity
  else if d.activities.contains env.currentActivity then env.currentActivity
  else d.activities.headD 0

/-- The `surface` getter (driver/window.ts:263-290): the surface built
from the window's cached screen and desktop and the chosen activity. -/
def dSurfaceOf (env : DEnv) (d : DWin) : DSurf :=
  { screen := d.screen, activity := dActivityOf env d, desktop := d.desktop,
    groups := env.groupsOn d.screen (dActivityOf env d) d.desktop }

/-- Heap update for the driver-level attributes. -/
def updDWin (h : Nat → DWin) (i : Nat) (d : DWin) : Nat → DWin :=
  fun j => if j = i then d else h j

/-- `allWindowsOn` (window_store.ts:212-214) over the full membership
predicate `DriverWindowImpl.on`. -/
def dAllWindowsOn (h : Nat → DWin) (store : List Nat) (surf : DSurf) :
    List Nat :=
  store.filter (fun i => dOn (h i) surf)

/-- The surface-relevant effect of `commitArrangement`
(engine/index.ts:464-477): every window of `allWindowsOn(surface)` gets
`win.surface = surface`. -/
def dCommitSurfaces (h : Nat → DWin) (store : List Nat) (surf : DSurf) :
    Nat → DWin :=
  (dAllWindowsOn h store surf).foldl
    (fun h i => updDWin h i (dSetSurface (h i) (some surf))) h

/-- Observable events of the driver-level `moveWindowToSurface`. -/
inductive DMEv where
  | notify
  | arrangeSurface (s : DSurf)
deriving DecidableEq

/-- The `window.surface = fromSurface` step of `moveWindowToSurface`
(engine/index.ts:1481): the window is assigned the surface just read from
it — the source surface, not the destination. -/
def dMoveHeap1 (env : DEnv) (h : Nat → DWin) (w : Nat) : Nat → DWin :=
  updDWin h w (dSetSurface (h w) (some (dSurfaceOf env (h w))))

/-- `EngineImpl.moveWindowToSurface` (engine/index.ts:1472-1486) over the
driver-level attributes: read the window's current surface, show a
notification, assign `window.surface = fromSurface`, then arrange the
source surface and the destination surface — each arrangement's
surface-relevant effect being its commit loop. -/
def dMoveWindowToSurface (env : DEnv) (h : Nat → DWin) (store : List Nat)
    (w : Nat) (toSurf : DSurf) : (Nat → DWin) × List DMEv :=
  (dCommitSurfaces
      (dCommitSurfaces (dMoveHeap1 env h w) store (dSurfaceOf env (h w)))
      store toSurf,
   [DMEv.notify, DMEv.arrangeSurface (dSurfaceOf env (h w)),
     DMEv.arrangeSurface toSurf])

theorem updDWin_eq (h : Nat → DWin) (i : Nat) (d : DWin) :
    updDWin h i d i = d := by
  unfold updDWin
  rw [if_pos rfl]

theorem updDWin_ne (h : Nat → DWin) (i : Nat) (d : DWin) {j : Nat}
    (hj : j ≠ i) : updDWin h i d j = h j := by
  unfold updDWin
  rw [if_neg hj]

theorem dSetSurface_own (env : DEnv) (d : DWin) :
    dSetSurface d (some (dSurfaceOf env d)) = d := rfl

theorem dMoveHeap1_id (env : DEnv) (h : Nat → DWin) (w : Nat) :
    dMoveHeap1 env h w = h := by
  funext j
  unfold dMoveHeap1 updDWin
  by_cases hj : j = w
  · rw [if_pos hj, dSetSurface_own, hj]
  · rw [if_neg hj]

theorem commitFold_fixed :
    ∀ (l : List Nat) (h : Nat → DWin) (w : Nat) (surf : DSurf),
      dSetSurface (h w) (some surf) = h w →
      (l.foldl (fun h i => updDWin h i (dSetSurface (h i) (some surf))) h) w
        = h w
  | [], _, _, _, _ => rfl
  | i :: l, h, w, surf, hfix => by
    have hw' : (updDWin h i (dSetSurface (h i) (some surf))) w = h w := by
      by_cases hw : w = i
      · subst hw
        rw [updDWin_eq, hfix]
      · exact updDWin_ne h i _ hw
    have hfix' : dSetSurface
        ((updDWin h i (dSetSurface (h i) (some surf))) w) (some surf) =
        (updDWin h i (dSetSurface (h i) (some surf))) w := by
      rw [hw', hfix]
    have hrec := commitFold_fixed l
      (updDWin h i (dSetSurface (h i) (some surf))) w surf hfix'
    exact hrec.trans hw'

theorem commitFold_not_mem :
    ∀ (l : List Nat) (h : Nat → DWin) (w : Nat) (surf : DSurf), w ∉ l →
      (l.foldl (fun h i => updDWin h i (dSetSurface (h i) (some surf))) h) w
        = h w
  | [], _, _, _, _ => rfl
  | i :: l, h, w, surf, hw => by
    have hne : w ≠ i := fun he => hw (he ▸ List.mem_cons_self i l)
    have hl : w ∉ l := fun hm => hw (List.mem_cons_of_mem i hm)
    have hrec := commitFold_not_mem l
      (updDWin h i (dSetSurface (h i) (some surf))) w surf hl
    exact hrec.trans (updDWin_ne h i _ hne)

theorem commitFold_mem :
    ∀ (l : List Nat) (h : Nat → DWin) (w : Nat) (surf : DSurf), w ∈ l →
      ((l.foldl (fun h i => updDWin h i (dSetSurface (h i) (some surf))) h)
          w).screen = surf.screen ∧
      ((l.foldl (fun h i => updDWin h i (dSetSurface (h i) (some surf))) h)
          w).desktop = surf.desktop
  | [], _, w, _, hw => absurd hw (List.not_mem_nil w)
  | i :: l, h, w, surf, hw => by
    by_cases hl : w ∈ l
    · exact commitFold_mem l (updDWin h i (dSetSurface (h i) (some surf)))
        w surf hl
    · have hwi : w = i := by
        rcases List.mem_cons.mp hw with he | hm
        · exact he
        · exact absurd hm hl
      subst hwi
      have hpres := commitFold_not_mem l
        (updDWin h w (dSetSurface (h w) (some surf))) w surf hl
      constructor
      · rw [show ((w :: l).foldl
            (fun h i => updDWin h i (dSetSurface (h i) (some surf))) h) w =
            (l.foldl (fun h i => updDWin h i (dSetSurface (h i) (some surf)))
              (updDWin h w (dSetSurface (h w) (some surf)))) w from rfl,
          hpres, updDWin_eq]
        rfl
      · rw [show ((w :: l).foldl
            (fun h i => updDWin h i (dSetSurface (h i) (some surf))) h) w =
            (l.foldl (fun h i => updDWin h i (dSetSurface (h i) (some surf)))
              (updDWin h w (dSetSurface (h w) (some surf)))) w from rfl,
          hpres, updDWin_eq]
        rfl

theorem dCommitSurfaces_entry_own (env : DEnv) (h : Nat → DWin)
    (store : List Nat) (w : Nat) :
    dCommitSurfaces h store (dSurfaceOf env (h w)) w = h w := by
  unfold dCommitSurfaces
  exact commitFold_fixed _ h w _ (dSetSurface_own env (h w))

theorem dCommitSurfaces_entry_not_on (h : Nat → DWin) (store : List Nat)
    (surf : DSurf) (w : Nat) (hno : dOn (h w) surf = false) :
    dCommitSurfaces h store surf w = h w := by
  unfold dCommitSurfaces
  apply commitFold_not_mem
  intro hmem
  have hon := (List.mem_filter.mp hmem).2
  rw [hno] at hon
  cases hon

theorem dCommitSurfaces_entry_on (h : Nat → DWin) (store : List Nat)
    (surf : DSurf) (w : Nat) (hmem : w ∈ store)
    (hon : dOn (h w) surf = true) :
    (dCommitSurfaces h store surf w).screen = surf.screen ∧
    (dCommitSurfaces h store surf w).desktop = surf.desktop := by
  unfold dCommitSurfaces
  exact commitFold_mem _ h w surf (List.mem_filter.mpr ⟨hmem, hon⟩)

def c10dHeap : Nat → DWin :=
  fun _ => ⟨some 7, 1, [], 0, 1⟩

def c10dEnv : DEnv :=
  { currentActivity := 0, groupsOn := fun _ _ _ => [] }

def c10dToSurf : DSurf :=
  { screen := 1, activity := 0, desktop := 1, groups := [7] }

def c10dToSurf2 : DSurf :=
  { screen := 1, activity := 0, desktop := 1, groups := [] }

/-- C10 counterexample: the direct assignment does put the source surface
back, but the subsequent arrangement of the destination surface commits
`win.surface = toSurface` to every window the driver's membership test
places there — including, through the group disjunct of
`DriverWindowImpl.on` (driver/window.ts:585-586), the moved window itself
whenever its group is displayed on the destination.  Here window `0`
(group `7`, screen `0`) is moved to a surface of screen `1` that displays
group `7`: after the call the window's screen is `1`, not the original
`0`, so its fields are *not* unchanged by the call. -/
theorem moveWindowToSurface_group_capture_counterexample :
    (c10dHeap 0).group = some 7 ∧ c10dToSurf.groups = [7] ∧
      (c10dHeap 0).screen = 0 ∧
      ((dMoveWindowToSurface c10dEnv c10dHeap [0] 0 c10dToSurf).1 0).screen
        = 1 ∧
      ((dMoveWindowToSurface c10dEnv c10dHeap [0] 0 c10dToSurf).1 0).screen
        ≠ (c10dHeap 0).screen := by
  refine ⟨rfl, rfl, rfl, by decide, by decide⟩

/-- **C10** (amended).  `moveWindowToSurface(window, toSurface)` assigns
the window its original (source) surface back rather than the
destination: that assignment is the identity on the whole heap (first
conjunct).  Its effects are the notification followed by re-arrangement
of the source surface and then of the destination surface (second
conjunct).  The window's fields, in particular its screen and desktop,
are unchanged by the call whenever the driver's membership test does not
place the window on the destination surface — in particular whenever its
group is not displayed there (third conjunct).  But when the window is in
the store and the membership test does place it on the destination (its
group is displayed there, or its client desktop/activities/screen match),
the destination arrangement's commit loop assigns it the destination
surface after all, setting its screen and desktop to the destination's
(fourth conjunct). -/
theorem moveWindowToSurface_source_back_or_group_capture :
    (∀ (env : DEnv) (h : Nat → DWin) (w : Nat), dMoveHeap1 env h w = h) ∧
    (∀ (env : DEnv) (h : Nat → DWin) (store : List Nat) (w : Nat)
        (toSurf : DSurf),
      (dMoveWindowToSurface env h store w toSurf).2 =
        [DMEv.notify, DMEv.arrangeSurface (dSurfaceOf env (h w)),
          DMEv.arrangeSurface toSurf]) ∧
    (∀ (env : DEnv) (h : Nat → DWin) (store : List Nat) (w : Nat)
        (toSurf : DSurf),
      dOn (h w) toSurf = false →
        (dMoveWindowToSurface env h store w toSurf).1 w = h w) ∧
    (∀ (env : DEnv) (h : Nat → DWin) (store : List Nat) (w : Nat)
        (toSurf : DSurf),
      w ∈ store → dOn (h w) toSurf = true →
        ((dMoveWindowToSurface env h store w toSurf).1 w).screen =
            toSurf.screen ∧
          ((dMoveWindowToSurface env h store w toSurf).1 w).desktop =
            toSurf.desktop) := by
  refine ⟨dMoveHeap1_id, fun env h store w toSurf => rfl, ?_, ?_⟩
  · intro env h store w toSurf hno
    show dCommitSurfaces (dCommitSurfaces (dMoveHeap1 env h w) store
      (dSurfaceOf env (h w))) store toSurf w = h w
    rw [dMoveHeap1_id]
    have h2w : dCommitSurfaces h store (dSurfaceOf env (h w)) w = h w :=
      dCommitSurfaces_entry_own env h store w
    have h3 := dCommitSurfaces_entry_not_on
      (dCommitSurfaces h store (dSurfaceOf env (h w))) store toSurf w
      (by rw [h2w]; exact hno)
    rw [h3, h2w]
  · intro env h store w toSurf hmem hon
    show ((dCommitSurfaces (dCommitSurfaces (dMoveHeap1 env h w) store
        (dSurfaceOf env (h w))) store toSurf) w).screen = toSurf.screen ∧
      ((dCommitSurfaces (dCommitSurfaces (dMoveHeap1 env h w) store
        (dSurfaceOf env (h w))) store toSurf) w).desktop = toSurf.desktop
    rw [dMoveHeap1_id]
    have h2w : dCommitSurfaces h store (dSurfaceOf env (h w)) w = h w :=
      dCommitSurfaces_entry_own env h store w
    exact dCommitSurfaces_entry_on
      (dCommitSurfaces h store (dSurfaceOf env (h w))) store toSurf w hmem
      (by rw [h2w]; exact hon)

/-- Witness for C10 (amended): window `0`'s group is not displayed on the
destination surface and its screen differs, so the membership test fails
and the whole call leaves the window's attributes unchanged. -/
theorem moveWindowToSurface_source_back_or_group_capture_witness :
    dOn (c10dHeap 0) c10dToSurf2 = false ∧
      (dMoveWindowToSurface c10dEnv c10dHeap [0] 0 c10dToSurf2).1 0 =
        c10dHeap 0 :=
  ⟨by decide,
    moveWindowToSurface_source_back_or_group_capture.2.2.1 c10dEnv c10dHeap
      [0] 0 c10dToSurf2 (by decide)⟩
